/-
A verification development for the `flac` Rust crate (a FLAC bitstream
decoder).  The Rust sources are shallowly embedded: pure functions become
Lean functions over `Nat`/`Int` (machine integers are modelled with
explicit `% 2^w` where the source can wrap), nom-style parsers become
functions from an input to an `IRes` value mirroring nom's
`Done/Error/Incomplete`, and in-place buffer updates become functions from
lists to lists.
-/
import Mathlib

namespace Flac

/-! ### Machine-integer helpers

Rust's `i32`/`i64` sample arithmetic is modelled on `Int`.  Arithmetic
right shift of a signed integer (`>>` in Rust) is `Int`'s `>>>`; left
shift, bitwise and/or/xor come from `Int.land`/`Int.lor`/`Int.xor`, whose
two's-complement semantics agree with Rust's on every width as long as no
intermediate overflows its width (the concrete inputs of the claims stay
far below 2^31). -/

/-- Arithmetic shift right on a signed value, Rust `value >> n`. -/
def sar (a : Int) (n : Nat) : Int := a >>> (n : Int)

/-- Shift left on a signed value, Rust `value << n`. -/
def shl (a : Int) (n : Nat) : Int := a <<< (n : Int)

/-- Bitwise and on signed values, Rust `a & b`. -/
def andI (a b : Int) : Int := Int.land a b

/-- Bitwise or on signed values, Rust `a | b`. -/
def orI (a b : Int) : Int := Int.lor a b

/-- Bitwise xor on signed values, Rust `a ^ b`. -/
def xorI (a b : Int) : Int := Int.xor a b

/-- Reinterpret an unsigned 32-bit value as a signed one, Rust `x as i32`
on a `u32`. -/
def toSigned32 (n : Nat) : Int :=
  if n % 2 ^ 32 < 2 ^ 31 then ((n % 2 ^ 32 : Nat) : Int)
  else ((n % 2 ^ 32 : Nat) : Int) - 2 ^ 32

/-! ### nom-style parse results

`IRes ι α` mirrors nom's three-valued `IResult`: `done` carries the
remaining input (of type `ι`: a byte list for byte-level parsers, a byte
list plus a bit offset for bit-level parsers) and the parsed value,
`incomplete` carries nom's `Needed` (`none` for `Needed::Unknown`,
`some n` for `Needed::Size(n)`).  The embedded parsers of this crate only
ever produce positional `ErrorKind`s that the stream driver collapses to
`Unknown`, so `error` carries no payload. -/

inductive IRes (ι : Type) (α : Type) where
  | done (i : ι) (o : α)
  | error
  | incomplete (needed : Option Nat)
deriving DecidableEq, Repr

/-- Map over the value of a parse result (nom's `map!`). -/
def IRes.map {ι α β : Type} (f : α → β) : IRes ι α → IRes ι β
  | .done i o => .done i (f o)
  | .error => .error
  | .incomplete n => .incomplete n

/-- `true` exactly on `done` results. -/
def IRes.isDone {ι α : Type} : IRes ι α → Bool
  | .done _ _ => true
  | _ => false

/-! ### Stereo decorrelation — `src/frame/decoder.rs`

The frame decode buffer holds channel 0 in its first half and channel 1
in its second half.  The Rust functions update the buffer in place; the
embedding rebuilds the list index by index.  In each loop the source only
reads positions it has not yet overwritten, so reading from the original
buffer is faithful. -/

namespace frame

/-- `decode_left_side` (src/frame/decoder.rs lines 7-17): the second half
(the side channel) is replaced by `left - side`. -/
def decode_left_side (buffer : List Int) : List Int :=
  let block_size := buffer.length / 2
  (List.range buffer.length).map fun i =>
    if block_size ≤ i ∧ i < block_size + block_size then
      buffer.getD (i - block_size) 0 - buffer.getD i 0
    else
      buffer.getD i 0

/-- `decode_right_side` (src/frame/decoder.rs lines 23-33): the first half
(the side channel) is replaced by `side + right`. -/
def decode_right_side (buffer : List Int) : List Int :=
  let block_size := buffer.length / 2
  (List.range buffer.length).map fun i =>
    if i < block_size then
      buffer.getD i 0 + buffer.getD (i + block_size) 0
    else
      buffer.getD i 0

/-- `decode_midpoint_side` (src/frame/decoder.rs lines 39-52): each pair
`(m, s)` is replaced by `left = (m' + s) >> 1` and `right = (m' - s) >> 1`
where `m' = (m << 1) | (s & 1)`. -/
def decode_midpoint_side (buffer : List Int) : List Int :=
  let block_size := buffer.length / 2
  (List.range buffer.length).map fun i =>
    if i < block_size then
      let midpoint := orI (shl (buffer.getD i 0) 1)
                          (andI (buffer.getD (i + block_size) 0) 1)
      sar (midpoint + buffer.getD (i + block_size) 0) 1
    else if i < block_size + block_size then
      let midpoint := orI (shl (buffer.getD (i - block_size) 0) 1)
                          (andI (buffer.getD i 0) 1)
      sar (midpoint - buffer.getD i 0) 1
    else
      buffer.getD i 0

/-- Channel assignment order (src/frame/types.rs). -/
inductive ChannelAssignment where
  | independent
  | leftSide
  | rightSide
  | midpointSide
deriving DecidableEq, Repr

/-- `decode` (src/frame/decoder.rs lines 63-70): dispatch on the channel
assignment; `Independent` returns the buffer unchanged. -/
def decode (channel_assignment : ChannelAssignment) (buffer : List Int) :
    List Int :=
  match channel_assignment with
  | .independent => buffer
  | .leftSide => decode_left_side buffer
  | .rightSide => decode_right_side buffer
  | .midpointSide => decode_midpoint_side buffer

end frame

/-- Indexing a `(List.range n).map f` list: position `i < n` holds `f i`. -/
theorem range_map_getD {n i : Nat} (f : Nat → Int) (h : i < n) :
    ((List.range n).map f).getD i 0 = f i := by
  have h1 : i < ((List.range n).map f).length := by simpa using h
  rw [List.getD_eq_getElem _ _ h1, List.getElem_map, List.getElem_range]

/-- Length of a `(List.range n).map f` list. -/
theorem range_map_length (n : Nat) (f : Nat → Int) :
    ((List.range n).map f).length = n := by simp

/-- C3: For every two-channel frame buffer of even length `2 * bs` holding
channel 0 in the first half and channel 1 in the second half, stereo
decorrelation behaves as: `Independent` leaves the buffer unchanged;
`LeftSide` replaces each second-half sample by `left - side`; `RightSide`
replaces each first-half sample by `side + right`; `MidpointSide`
replaces each pair `(m, s)` by `left = (m' + s) >> 1` and
`right = (m' - s) >> 1` where `m' = (m << 1) | (s & 1)` — all other
positions keeping their original value. -/
theorem claim_C3 (buffer : List Int) (bs : Nat)
    (hlen : buffer.length = 2 * bs) :
    (frame.decode .independent buffer = buffer) ∧
    ((frame.decode .leftSide buffer).length = buffer.length ∧
      ∀ i < bs,
        (frame.decode .leftSide buffer).getD i 0 = buffer.getD i 0 ∧
        (frame.decode .leftSide buffer).getD (bs + i) 0 =
          buffer.getD i 0 - buffer.getD (bs + i) 0) ∧
    ((frame.decode .rightSide buffer).length = buffer.length ∧
      ∀ i < bs,
        (frame.decode .rightSide buffer).getD i 0 =
          buffer.getD i 0 + buffer.getD (bs + i) 0 ∧
        (frame.decode .rightSide buffer).getD (bs + i) 0 =
          buffer.getD (bs + i) 0) ∧
    ((frame.decode .midpointSide buffer).length = buffer.length ∧
      ∀ i < bs,
        (frame.decode .midpointSide buffer).getD i 0 =
          sar (orI (shl (buffer.getD i 0) 1)
                   (andI (buffer.getD (bs + i) 0) 1) +
               buffer.getD (bs + i) 0) 1 ∧
        (frame.decode .midpointSide buffer).getD (bs + i) 0 =
          sar (orI (shl (buffer.getD i 0) 1)
                   (andI (buffer.getD (bs + i) 0) 1) -
               buffer.getD (bs + i) 0) 1) := by
  have hbs : buffer.length / 2 = bs := by omega
  refine ⟨rfl, ⟨?_, ?_⟩, ⟨?_, ?_⟩, ⟨?_, ?_⟩⟩
  · simp [frame.decode, frame.decode_left_side]
  · intro i hi
    constructor
    · rw [frame.decode, frame.decode_left_side,
        range_map_getD _ (by omega : i < buffer.length)]
      rw [hbs]
      rw [if_neg (by omega)]
    · rw [frame.decode, frame.decode_left_side,
        range_map_getD _ (by omega : bs + i < buffer.length)]
      rw [hbs]
      rw [if_pos (by omega)]
      have hidx : bs + i - bs = i := by omega
      rw [hidx]
  · simp [frame.decode, frame.decode_right_side]
  · intro i hi
    constructor
    · rw [frame.decode, frame.decode_right_side,
        range_map_getD _ (by omega : i < buffer.length)]
      rw [hbs]
      rw [if_pos (by omega), Nat.add_comm i bs]
    · rw [frame.decode, frame.decode_right_side,
        range_map_getD _ (by omega : bs + i < buffer.length)]
      rw [hbs]
      rw [if_neg (by omega)]
  · simp [frame.decode, frame.decode_midpoint_side]
  · intro i hi
    constructor
    · rw [frame.decode, frame.decode_midpoint_side,
        range_map_getD _ (by omega : i < buffer.length)]
      rw [hbs]
      rw [if_pos (by omega), Nat.add_comm i bs]
    · rw [frame.decode, frame.decode_midpoint_side,
        range_map_getD _ (by omega : bs + i < buffer.length)]
      rw [hbs]
      rw [if_neg (by omega), if_pos (by omega)]
      have : bs + i - bs = i := by omega
      rw [this, Nat.add_comm bs i]

/-- C3 witness: the mid/side test vector of the spec (§8, scenario 5) run
through the theorem at `bs = 8`, sample 0: stored mid `-2` and side `7`
yield right channel value `(((-2) << 1 | (7 & 1)) - 7) >> 1 = -5`. -/
theorem claim_C3_witness :
    ([(-2 : Int), -14, 12, -6, 127, 13, -19, -6,
      7, 38, 142, 238, 0, -152, -52, -18] : List Int).length = 2 * 8 ∧
    (frame.decode .midpointSide
        [(-2 : Int), -14, 12, -6, 127, 13, -19, -6,
         7, 38, 142, 238, 0, -152, -52, -18]).getD 8 0 =
      sar (orI (shl (-2) 1) (andI 7 1) - 7) 1 :=
  ⟨by decide,
   ((claim_C3
      [(-2 : Int), -14, 12, -6, 127, 13, -19, -6,
       7, 38, 142, 238, 0, -152, -52, -18] 8 (by decide)).2.2.2.2
     0 (by decide)).2⟩

/-! ### Byte-level primitives (nom combinators and `src/utility.rs`)

Bytes are modelled as `Nat` values below 256; multi-byte big-endian
assembly follows `to_u32` of `src/utility.rs`. -/

/-- nom `take!(n)`: split off `n` bytes or report how many are needed. -/
def takeN (n : Nat) (input : List Nat) : IRes (List Nat) (List Nat) :=
  if n ≤ input.length then .done (input.drop n) (input.take n)
  else .incomplete (some n)

/-- nom `be_u8`. -/
def be_u8 : List Nat → IRes (List Nat) Nat
  | [] => .incomplete (some 1)
  | b :: rest => .done rest b

/-- nom `be_u16` (big-endian). -/
def be_u16 : List Nat → IRes (List Nat) Nat
  | b0 :: b1 :: rest => .done rest (b0 * 256 + b1)
  | _ => .incomplete (some 2)

/-- nom `be_u32` (big-endian). -/
def be_u32 (input : List Nat) : IRes (List Nat) Nat :=
  (takeN 4 input).map fun bytes => bytes.foldl (fun acc b => acc * 256 + b) 0

/-- nom `be_u64` (big-endian). -/
def be_u64 (input : List Nat) : IRes (List Nat) Nat :=
  (takeN 8 input).map fun bytes => bytes.foldl (fun acc b => acc * 256 + b) 0

/-- nom `le_u32` (little-endian). -/
def le_u32 : List Nat → IRes (List Nat) Nat
  | b0 :: b1 :: b2 :: b3 :: rest =>
    .done rest (((b3 * 256 + b2) * 256 + b1) * 256 + b0)
  | _ => .incomplete (some 4)

/-- `to_u32` (src/utility/mod.rs): assemble 1..4 bytes big-endian. -/
def to_u32 (bytes : List Nat) : Nat :=
  (List.range bytes.length).foldl
    (fun result i => result + bytes.getD i 0 * 2 ^ ((bytes.length - 1 - i) * 8))
    0

/-- Sequencing of parse results (the nom `chain!`/`~` combinator):
`error` and `incomplete` short-circuit. -/
def IRes.bind {ι α β : Type} (r : IRes ι α) (f : ι → α → IRes ι β) :
    IRes ι β :=
  match r with
  | .done i o => f i o
  | .error => .error
  | .incomplete n => .incomplete n

/-- nom `count!(p, n)`: run `p` exactly `n` times, collecting the values. -/
def countP {α : Type} (p : List Nat → IRes (List Nat) α) :
    Nat → List Nat → IRes (List Nat) (List α)
  | 0, input => .done input []
  | n + 1, input =>
    (p input).bind fun i o => (countP p n i).map (o :: ·)

/-- Byte-level validity of UTF-8 (Rust `str::from_utf8`, used by nom's
`take_str!`): the RFC 3629 byte-range table. -/
def isValidUtf8 : List Nat → Bool
  | [] => true
  | b :: rest =>
    if b ≤ 0x7F then isValidUtf8 rest
    else if 0xC2 ≤ b ∧ b ≤ 0xDF then
      match rest with
      | c1 :: r => decide (0x80 ≤ c1 ∧ c1 ≤ 0xBF) && isValidUtf8 r
      | _ => false
    else if 0xE0 ≤ b ∧ b ≤ 0xEF then
      match rest with
      | c1 :: c2 :: r =>
        let lo1 : Nat := if b = 0xE0 then 0xA0 else 0x80
        let hi1 : Nat := if b = 0xED then 0x9F else 0xBF
        decide (lo1 ≤ c1 ∧ c1 ≤ hi1) && decide (0x80 ≤ c2 ∧ c2 ≤ 0xBF) &&
          isValidUtf8 r
      | _ => false
    else if 0xF0 ≤ b ∧ b ≤ 0xF4 then
      match rest with
      | c1 :: c2 :: c3 :: r =>
        let lo1 : Nat := if b = 0xF0 then 0x90 else 0x80
        let hi1 : Nat := if b = 0xF4 then 0x8F else 0xBF
        decide (lo1 ≤ c1 ∧ c1 ≤ hi1) && decide (0x80 ≤ c2 ∧ c2 ≤ 0xBF) &&
          decide (0x80 ≤ c3 ∧ c3 ≤ 0xBF) && isValidUtf8 r
      | _ => false
    else false

/-- nom `take_str!(n)`: take `n` bytes and require them to be valid UTF-8
(the string contents are kept as raw byte lists in this embedding). -/
def take_str (n : Nat) (input : List Nat) : IRes (List Nat) (List Nat) :=
  (takeN n input).bind fun i bytes =>
    if isValidUtf8 bytes then .done i bytes else .error

/-! ### Metadata block parsers — `src/metadata/parser.rs` -/

namespace metadata

/-- `StreamInfo` (src/metadata/types.rs). -/
structure StreamInfo where
  min_block_size : Nat
  max_block_size : Nat
  min_frame_size : Nat
  max_frame_size : Nat
  sample_rate : Nat
  channels : Nat
  bits_per_sample : Nat
  total_samples : Nat
  md5_sum : List Nat
deriving DecidableEq, Repr

/-- `StreamInfo::new` (src/metadata/types.rs lines 270-282): all fields
zero, the MD5 being sixteen zero bytes. -/
def StreamInfo.new : StreamInfo :=
  { min_block_size := 0, max_block_size := 0, min_frame_size := 0
    max_frame_size := 0, sample_rate := 0, channels := 0
    bits_per_sample := 0, total_samples := 0
    md5_sum := List.replicate 16 0 }

/-- `SeekPoint` (src/metadata/types.rs). -/
structure SeekPoint where
  sample_number : Nat
  stream_offset : Nat
  frame_samples : Nat
deriving DecidableEq, Repr

/-- `VorbisComment`: the vendor string and comment lines are kept as raw
(UTF-8-validated) byte lists. -/
structure VorbisComment where
  vendor_string : List Nat
  comments : List (List Nat)
deriving DecidableEq, Repr

/-- `CueSheetTrackIndex` (src/metadata/types.rs). -/
structure CueSheetTrackIndex where
  offset : Nat
  number : Nat
deriving DecidableEq, Repr

/-- `CueSheetTrack` (src/metadata/types.rs). -/
structure CueSheetTrack where
  offset : Nat
  number : Nat
  isrc : List Nat
  isnt_audio : Bool
  is_pre_emphasis : Bool
  indices : List CueSheetTrackIndex
deriving DecidableEq, Repr

/-- `CueSheet` (src/metadata/types.rs). -/
structure CueSheet where
  media_catalog_number : List Nat
  lead_in : Nat
  is_cd : Bool
  tracks : List CueSheetTrack
deriving DecidableEq, Repr

/-- `Picture` (src/metadata/types.rs); the picture type is kept as the
code the source maps into its 21-variant enum (codes above 20 collapse
to 0, `Other`, exactly as the source's `match` does). -/
structure Picture where
  picture_type : Nat
  mime_type : List Nat
  description : List Nat
  width : Nat
  height : Nat
  depth : Nat
  colors : Nat
  data : List Nat
deriving DecidableEq, Repr

/-- The typed metadata block payloads (`Data` in src/metadata/types.rs,
`BlockData` in src/metadata/parser.rs). -/
inductive MData where
  | streamInfo (info : StreamInfo)
  | padding (n : Nat)
  | application (id : List Nat) (data : List Nat)
  | seekTable (points : List SeekPoint)
  | vorbisComment (vc : VorbisComment)
  | cueSheet (cs : CueSheet)
  | picture (p : Picture)
  | unknown (data : List Nat)
deriving DecidableEq, Repr

/-- A parsed metadata block (`Metadata` in src/metadata/types.rs). -/
structure Metadata where
  is_last : Bool
  length : Nat
  data : MData
deriving DecidableEq, Repr

/-- `stream_info` (src/metadata/parser.rs lines 52-86).  The
`bits_per_sample` expression is translated exactly as Rust parses it:
`((bytes[2] & 0b01) << 4) + bytes[3] >> 4` groups as
`(((bytes[2] & 1) << 4) + bytes[3]) >> 4` because `+` binds tighter than
`>>`, and the `u8` addition wraps at 256 (release semantics; a debug
build would panic on overflow). -/
def stream_info (input : List Nat) : IRes (List Nat) MData :=
  (be_u16 input).bind fun i1 min_block_size =>
  (be_u16 i1).bind fun i2 max_block_size =>
  ((takeN 3 i2).map to_u32).bind fun i3 min_frame_size =>
  ((takeN 3 i3).map to_u32).bind fun i4 max_frame_size =>
  (takeN 8 i4).bind fun i5 bytes =>
  (takeN 16 i5).bind fun i6 md5_sum =>
    let b0 := bytes.getD 0 0
    let b1 := bytes.getD 1 0
    let b2 := bytes.getD 2 0
    let b3 := bytes.getD 3 0
    let sample_rate := b0 * 2 ^ 12 + b1 * 2 ^ 4 + b2 / 2 ^ 4
    let channels := (b2 / 2) % 8
    let bits_per_sample := (((b2 % 2) * 2 ^ 4 + b3) % 256) / 2 ^ 4
    let total_samples :=
      (b3 % 16) * 2 ^ 32 + bytes.getD 4 0 * 2 ^ 24 +
        bytes.getD 5 0 * 2 ^ 16 + bytes.getD 6 0 * 2 ^ 8 + bytes.getD 7 0
    .done i6 (.streamInfo
      { min_block_size := min_block_size
        max_block_size := max_block_size
        min_frame_size := min_frame_size
        max_frame_size := max_frame_size
        sample_rate := sample_rate
        channels := channels + 1
        bits_per_sample := bits_per_sample + 1
        total_samples := total_samples
        md5_sum := md5_sum })

/-- The wrapping `u8` sum `bytes.iter().fold(0, |result, byte| result + byte)`
of the local `skip_bytes!` macro (src/metadata/parser.rs lines 19-37);
overflow wraps at 256 in release builds (a debug build panics). -/
def sum_u8 (bytes : List Nat) : Nat :=
  bytes.foldl (fun result byte => (result + byte) % 256) 0

/-- `skip_bytes!` (src/metadata/parser.rs lines 19-37): take `length`
bytes and succeed exactly when their wrapping `u8` sum is zero. -/
def skip_bytes (length : Nat) (input : List Nat) :
    IRes (List Nat) (List Nat) :=
  (takeN length input).bind fun i bytes =>
    if sum_u8 bytes = 0 then .done i bytes else .error

/-- `padding` (src/metadata/parser.rs lines 88-94). -/
def padding (input : List Nat) (length : Nat) : IRes (List Nat) MData :=
  (skip_bytes length input).map fun _ => .padding 0

/-- `application` (src/metadata/parser.rs lines 96-107).  `length - 4` is
the source's `u32` subtraction; for `length < 4` the source would wrap
(release) or panic (debug) — never exercised here, modelled with
truncated subtraction. -/
def application (input : List Nat) (length : Nat) : IRes (List Nat) MData :=
  (take_str 4 input).bind fun i1 id =>
  (takeN (length - 4) i1).bind fun i2 data =>
    .done i2 (.application id data)

/-- `seek_point` (src/metadata/parser.rs lines 109-122). -/
def seek_point (input : List Nat) : IRes (List Nat) SeekPoint :=
  (be_u64 input).bind fun i1 sample_number =>
  (be_u64 i1).bind fun i2 stream_offset =>
  (be_u16 i2).bind fun i3 frame_samples =>
    .done i3 { sample_number, stream_offset, frame_samples }

/-- `seek_table` (src/metadata/parser.rs lines 124-128). -/
def seek_table (input : List Nat) (length : Nat) : IRes (List Nat) MData :=
  (countP seek_point (length / 18) input).map .seekTable

/-- `comment_field` (src/metadata/parser.rs lines 145-151). -/
def comment_field (input : List Nat) : IRes (List Nat) (List Nat) :=
  (le_u32 input).bind fun i1 comment_length =>
  take_str comment_length i1

/-- `vorbis_comment` (src/metadata/parser.rs lines 130-143). -/
def vorbis_comment (input : List Nat) : IRes (List Nat) MData :=
  (le_u32 input).bind fun i1 vendor_string_length =>
  (take_str vendor_string_length i1).bind fun i2 vendor_string =>
  (le_u32 i2).bind fun i3 number_of_comments =>
  (countP comment_field number_of_comments i3).bind fun i4 comments =>
    .done i4 (.vorbisComment { vendor_string, comments })

/-- `cue_sheet_track_index` (src/metadata/parser.rs lines 200-212). -/
def cue_sheet_track_index (input : List Nat) :
    IRes (List Nat) CueSheetTrackIndex :=
  (be_u64 input).bind fun i1 offset =>
  (be_u8 i1).bind fun i2 number =>
  (skip_bytes 3 i2).bind fun i3 _ =>
    .done i3 { offset, number }

/-- `cue_sheet_track` (src/metadata/parser.rs lines 173-198); the
reserved-zero region inside the 14 flag bytes is not validated by the
source (`TODO` comment there). -/
def cue_sheet_track (input : List Nat) : IRes (List Nat) CueSheetTrack :=
  (be_u64 input).bind fun i1 offset =>
  (be_u8 i1).bind fun i2 number =>
  (take_str 12 i2).bind fun i3 isrc =>
  (takeN 14 i3).bind fun i4 bytes =>
  (be_u8 i4).bind fun i5 num_indices =>
  (if num_indices ≠ 0 then
      (countP cue_sheet_track_index num_indices i5).map some
    else .done i5 none).bind fun i6 indices =>
    let isnt_audio := (bytes.getD 0 0) / 2 ^ 7 % 2 = 1
    let is_pre_emphasis := (bytes.getD 0 0) / 2 ^ 6 % 2 = 1
    .done i6
      { offset, number, isrc, isnt_audio, is_pre_emphasis
        indices := indices.getD [] }

/-- `cue_sheet` (src/metadata/parser.rs lines 153-171); the 259
reserved-zero bytes are not validated by the source (`TODO` comment
there). -/
def cue_sheet (input : List Nat) : IRes (List Nat) MData :=
  (take_str 128 input).bind fun i1 media_catalog_number =>
  (be_u64 i1).bind fun i2 lead_in =>
  (takeN 259 i2).bind fun i3 bytes =>
  (be_u8 i3).bind fun i4 num_tracks =>
  (countP cue_sheet_track num_tracks i4).bind fun i5 tracks =>
    let is_cd := (bytes.getD 0 0) / 2 ^ 7 % 2 = 1
    .done i5 (.cueSheet { media_catalog_number, lead_in, is_cd, tracks })

/-- `picture` (src/metadata/parser.rs lines 214-265); picture-type codes
above 20 collapse to 0 (`Other`), exactly as the source `match` does. -/
def picture (input : List Nat) : IRes (List Nat) MData :=
  (be_u32 input).bind fun i1 picture_type_num =>
  (be_u32 i1).bind fun i2 mime_type_length =>
  (take_str mime_type_length i2).bind fun i3 mime_type =>
  (be_u32 i3).bind fun i4 description_length =>
  (take_str description_length i4).bind fun i5 description =>
  (be_u32 i5).bind fun i6 width =>
  (be_u32 i6).bind fun i7 height =>
  (be_u32 i7).bind fun i8 depth =>
  (be_u32 i8).bind fun i9 colors =>
  (be_u32 i9).bind fun i10 data_length =>
  (takeN data_length i10).bind fun i11 data =>
    let picture_type := if picture_type_num ≤ 20 then picture_type_num else 0
    .done i11 (.picture
      { picture_type, mime_type, description, width, height, depth, colors
        data })

/-- `unknown` (src/metadata/parser.rs lines 270-273). -/
def unknown (input : List Nat) (length : Nat) : IRes (List Nat) MData :=
  (takeN length input).map .unknown

/-- `header` (src/metadata/parser.rs lines 275-286): one byte whose top
bit is the last-block flag and whose low seven bits are the type code,
then a 24-bit big-endian length. -/
def header (input : List Nat) : IRes (List Nat) (Bool × Nat × Nat) :=
  (be_u8 input).bind fun i1 block_byte =>
  ((takeN 3 i1).map to_u32).bind fun i2 length =>
    .done i2 (block_byte / 2 ^ 7 = 1, block_byte % 2 ^ 7, length)

/-- `block_data` (src/metadata/parser.rs lines 288-301): dispatch on the
block type code; 7..126 are retained opaquely, 127 is an error. -/
def block_data (input : List Nat) (block_type : Nat) (length : Nat) :
    IRes (List Nat) MData :=
  if block_type = 0 then stream_info input
  else if block_type = 1 then padding input length
  else if block_type = 2 then application input length
  else if block_type = 3 then seek_table input length
  else if block_type = 4 then vorbis_comment input
  else if block_type = 5 then cue_sheet input
  else if block_type = 6 then picture input
  else if block_type ≤ 126 then unknown input length
  else .error

/-- `block` (src/metadata/parser.rs lines 303-315) — the single-block
metadata parser; this is the definition behind the `metadata_parser`
name re-exported by src/metadata/mod.rs (the snapshot's parser.rs itself
does not contain a symbol of that name). -/
def block (input : List Nat) : IRes (List Nat) Metadata :=
  (header input).bind fun i1 bh =>
  (block_data i1 bh.2.1 bh.2.2).bind fun i2 data =>
    .done i2 { is_last := bh.1, length := bh.2.2, data := data }

end metadata

/-- C7 (code_bug evaluation): a 34-byte STREAMINFO body whose packed
bits-per-sample field is 16 (third packed byte `0x03`, fourth packed byte
`0x00`, so the claimed value is `((0x03 & 1) << 4) + (0x00 >> 4) + 1 =
17`) parses to `bits_per_sample = 2`, because the source expression
`((bytes[2] & 0b01) << 4) + bytes[3] >> 4` associates as
`(((bytes[2] & 1) << 4) + bytes[3]) >> 4`. -/
theorem claim_C7 :
    metadata.stream_info
      [0x12, 0x00, 0x12, 0x00, 0x00, 0x00, 0x0e, 0x00, 0x00, 0x10,
       0x01, 0xf4, 0x03, 0x00, 0x00, 0x01, 0x38, 0x80,
       0, 0, 0, 0, 0, 0, 0, 0, 0, 0, 0, 0, 0, 0, 0, 0] =
      .done []
        (.streamInfo
          { min_block_size := 4608, max_block_size := 4608
            min_frame_size := 14, max_frame_size := 16
            sample_rate := 8000, channels := 2
            bits_per_sample := 2, total_samples := 80000
            md5_sum := List.replicate 16 0 }) ∧
    (2 : Nat) ≠ ((0x03 &&& 1) <<< 4) + (0x00 >>> 4) + 1 := by
  constructor
  · rfl
  · decide

/-- C8 (code_bug evaluation): a PADDING body of two `0x80` bytes is not
all-zero, yet the parser succeeds, because the validity check is a
wrapping `u8` sum (`0x80 + 0x80 = 0 (mod 256)`) rather than an
all-bytes-zero test. -/
theorem claim_C8 :
    metadata.padding [0x80, 0x80] 2 = .done [] (.padding 0) ∧
    ¬ ([0x80, 0x80].all (· = 0)) := by decide

/-! ### The byte-slice producer — `src/utility/types.rs` -/

/-- The error kinds of `src/utility/types.rs` that the byte-slice
producer and the stream driver can produce or inspect.  The embedded
parsers only carry positional nom errors, which `ByteStream::parse` maps
to `Unknown`; the parser-specific `Custom` kinds are never produced on
this path. -/
inductive ErrorKind where
  | EndOfInput
  | Incomplete (needed : Nat)
  | Continue
  | Unknown
deriving DecidableEq, Repr

/-- `ByteStream` (src/utility/types.rs lines 98-110): a byte slice plus
the offset of the already-consumed prefix. -/
structure ByteStream where
  offset : Nat
  bytes : List Nat
deriving DecidableEq, Repr

/-- `ByteStream::new`. -/
def ByteStream.new (bytes : List Nat) : ByteStream :=
  { offset := 0, bytes := bytes }

/-- `ByteStream::len`: bytes not yet consumed. -/
def ByteStream.len (s : ByteStream) : Nat := s.bytes.length - s.offset

/-- `ByteStream::is_empty`. -/
def ByteStream.isEmpty (s : ByteStream) : Bool := s.len = 0

/-- `<ByteStream as StreamProducer>::parse` (src/utility/types.rs lines
125-163), returning the updated stream next to the result: an exhausted
stream yields `EndOfInput` before the parser function runs; `Done`
advances the offset by the consumed count; `Incomplete` surfaces the
needed count (defaulting to the remaining length for `Needed::Unknown`);
a parse error surfaces as `Unknown` (the embedded parsers never carry a
`Custom` kind). -/
def ByteStream.parse {α : Type} (s : ByteStream)
    (f : List Nat → IRes (List Nat) α) : ByteStream × Except ErrorKind α :=
  if s.isEmpty then (s, .error .EndOfInput)
  else
    match f (s.bytes.drop s.offset) with
    | .done i o => ({ s with offset := s.offset + (s.len - i.length) }, .ok o)
    | .incomplete n => (s, .error (.Incomplete (n.getD s.len)))
    | .error => (s, .error .Unknown)

/-! ### The stream driver — `src/stream.rs` -/

/-- nom `tag!("fLaC")`: match the four signature bytes. -/
def tag_fLaC (input : List Nat) : IRes (List Nat) (List Nat) :=
  let t : List Nat := [0x66, 0x4C, 0x61, 0x43]
  if input.take 4 = t then .done (input.drop 4) t
  else if input.length < 4 ∧ input = t.take input.length then
    .incomplete (some 4)
  else .error

/-- `parser` (src/stream.rs lines 33-45): consume the "fLaC" signature
first when `is_start` holds, then parse one metadata block
(`metadata_parser`, i.e. `metadata.block`).  The second component is the
updated `is_start` flag, which the source clears as soon as the tag has
matched — even if the block parse afterwards fails. -/
def stream_parse : Bool → List Nat →
    IRes (List Nat) metadata.Metadata × Bool
  | true, input =>
    match tag_fLaC input with
    | .done i _ => (metadata.block i, false)
    | .error => (.error, true)
    | .incomplete n => (.incomplete n, true)
  | false, input => (metadata.block input, false)

/-- The metadata loop of `Stream::from_stream_producer` (src/stream.rs
lines 109-161) over a byte-slice producer.  The source's unbounded
`loop` is modelled with explicit fuel; every iteration that does not
terminate the loop consumes at least the four block-header bytes, so
`s.len + 1` units of fuel (supplied by `from_stream_producer`) always
suffice and the fuel-exhaustion branch is unreachable there. -/
def from_stream_producer_loop (fuel : Nat) (is_start : Bool)
    (s : ByteStream) (info : metadata.StreamInfo)
    (meta : List metadata.Metadata) :
    Except Unit (metadata.StreamInfo × List metadata.Metadata) :=
  match fuel with
  | 0 => .error ()
  | fuel + 1 =>
    let pr := s.parse (fun i => (stream_parse is_start i).1)
    let is_start2 :=
      if s.isEmpty then is_start
      else (stream_parse is_start (s.bytes.drop s.offset)).2
    match pr.2 with
    | .ok block =>
      let info2 := match block.data with
        | .streamInfo si => si
        | _ => info
      let meta2 := match block.data with
        | .streamInfo _ => meta
        | _ => meta ++ [block]
      if block.is_last then .ok (info2, meta2)
      else from_stream_producer_loop fuel is_start2 pr.1 info2 meta2
    | .error .EndOfInput => .ok (info, meta)
    | .error .Continue => from_stream_producer_loop fuel is_start2 pr.1 info meta
    | .error _ => .error ()

/-- `Stream::from_stream_producer` (src/stream.rs lines 109-161) for a
byte-slice producer: drive the metadata loop from the signature; on
success the driver holds the (possibly still default) `StreamInfo` and
the non-STREAMINFO metadata blocks. -/
def from_stream_producer (s : ByteStream) :
    Except Unit (metadata.StreamInfo × List metadata.Metadata) :=
  from_stream_producer_loop (s.len + 1) true s metadata.StreamInfo.new []

/-! ### The sample iterator size hint — `src/stream.rs` -/

/-- `usize::max_value()` on the 64-bit targets the crate is built for. -/
def usizeMax : Nat := 2 ^ 64 - 1

/-- `Stream::iter` (src/stream.rs lines 164-174) initializes the
iterator's `samples_left` counter with `info.total_samples` — the field
alone, not multiplied by the channel count. -/
def iter_samples_left (info : metadata.StreamInfo) : Nat :=
  info.total_samples

/-- `Iter::size_hint` (src/stream.rs lines 310-321): the `u64` counter is
cast to `usize` (a truncation, modelled `% 2^64`) and the upper bound is
dropped only when the counter exceeds `usize::max_value()`. -/
def size_hint (samples_left : Nat) : Nat × Option Nat :=
  let samples_left_usize := samples_left % 2 ^ 64
  if samples_left > usizeMax then (samples_left_usize, none)
  else (samples_left_usize, some samples_left_usize)

/-- C10: For every `ByteStream` whose bytes are fully consumed (its
remaining length is zero — including one constructed from an empty
slice), `parse` returns the end-of-input error with the stream (and so
its consumed offset) unchanged; the supplied parser function `f` is
never invoked, which is why the statement holds for every `f`
whatsoever. -/
theorem claim_C10 {α : Type} (s : ByteStream)
    (f : List Nat → IRes (List Nat) α) (h : s.isEmpty = true) :
    s.parse f = (s, .error .EndOfInput) := by
  unfold ByteStream.parse
  rw [h]
  rfl

/-- C10 witness: a `ByteStream` over the empty slice, parsed with the
metadata block parser. -/
theorem claim_C10_witness :
    (ByteStream.new []).isEmpty = true ∧
    (ByteStream.new []).parse metadata.block =
      (ByteStream.new [], .error .EndOfInput) :=
  ⟨rfl, claim_C10 (ByteStream.new []) metadata.block rfl⟩

/-- C6 counterexample: two inputs without a STREAMINFO block that
nevertheless open successfully, refuting "an input whose metadata chain
terminates, or whose bytes are exhausted, without a STREAMINFO block
never yields a successfully opened stream": the empty input (bytes
exhausted immediately — the loop maps `EndOfInput` to a successful open
with the default `StreamInfo`), and "fLaC" followed by a single
last-flagged PADDING block (chain terminates, STREAMINFO never seen). -/
theorem claim_C6_cex :
    from_stream_producer (ByteStream.new []) =
      .ok (metadata.StreamInfo.new, []) ∧
    from_stream_producer
        (ByteStream.new
          [0x66, 0x4C, 0x61, 0x43, 0x81, 0x00, 0x00, 0x02, 0x00, 0x00]) =
      .ok (metadata.StreamInfo.new,
           [{ is_last := true, length := 2, data := .padding 0 }]) := by
  constructor
  · rfl
  · rfl

/-- C6 (amended): opening from a byte-slice producer does not fail when
no STREAMINFO is observed — exhaustion of the input is mapped to a
successful open carrying the default `StreamInfo`; in particular every
fully-consumed stream opens successfully with `StreamInfo::new` and no
metadata. -/
theorem claim_C6 (s : ByteStream) (h : s.isEmpty = true) :
    from_stream_producer s = .ok (metadata.StreamInfo.new, []) := by
  have hlen : s.len = 0 := by
    have := of_decide_eq_true h
    exact this
  unfold from_stream_producer
  rw [hlen]
  unfold from_stream_producer_loop
  unfold ByteStream.parse
  rw [h]
  rfl

/-- C6 witness: the empty byte stream. -/
theorem claim_C6_witness :
    (ByteStream.new []).isEmpty = true ∧
    from_stream_producer (ByteStream.new []) =
      .ok (metadata.StreamInfo.new, []) :=
  ⟨rfl, claim_C6 (ByteStream.new []) rfl⟩

/-- C9 counterexample: for an opened stream whose STREAMINFO has
`total_samples = 0` and two channels the claim demands an absent upper
bound, but `size_hint` yields `(0, some 0)`; and for `total_samples =
10` with two channels the claim demands a lower bound of `10 * 2 = 20`,
but `size_hint` yields `10`. -/
theorem claim_C9_cex :
    size_hint (iter_samples_left
        { metadata.StreamInfo.new with total_samples := 0, channels := 2 }) =
      (0, some 0) ∧
    (some (0 : Nat) ≠ none) ∧
    size_hint (iter_samples_left
        { metadata.StreamInfo.new with total_samples := 10, channels := 2 }) =
      (10, some 10) ∧
    (10 : Nat) ≠ 10 * 2 := by
  refine ⟨by decide, by decide, by decide, by decide⟩

/-- C9 (amended): the iterator's size hint is
`(total_samples, some total_samples)` — the counter is STREAMINFO's
total-samples field alone, not multiplied by the channel count, and the
upper bound is present even when the field is zero (it could only be
dropped if the counter exceeded `usize::max_value()`, which a `u64`
counter on a 64-bit target never does). -/
theorem claim_C9 (info : metadata.StreamInfo)
    (h : info.total_samples ≤ usizeMax) :
    size_hint (iter_samples_left info) =
      (info.total_samples, some info.total_samples) := by
  unfold size_hint iter_samples_left
  have hpow : (2 : Nat) ^ 64 = 18446744073709551616 := by norm_num
  have h3 : info.total_samples ≤ 18446744073709551615 := h
  have h1 : ¬ info.total_samples > usizeMax := not_lt.mpr h
  have h2 : info.total_samples % 2 ^ 64 = info.total_samples :=
    Nat.mod_eq_of_lt (by rw [hpow]; omega)
  simp [h1, h2]
  omega

/-- C9 witness: the default STREAMINFO (total samples 0). -/
theorem claim_C9_witness :
    metadata.StreamInfo.new.total_samples ≤ usizeMax ∧
    size_hint (iter_samples_left metadata.StreamInfo.new) = (0, some 0) :=
  ⟨by decide, claim_C9 metadata.StreamInfo.new (by decide)⟩

/-! ### Bit-level primitives — nom bit parsers and `src/subframe/parser.rs`

Bit-level parsers run on a byte list plus a bit offset (0..7) inside its
first byte, exactly nom's `(&[u8], usize)` input pairs. -/

/-- A bit-level parser input: the unread bytes and the bit offset within
the first of them. -/
abbrev BitInput := List Nat × Nat

/-- `u8::leading_zeros` (for values below 256). -/
def clz8 (v : Nat) : Nat :=
  if 128 ≤ v then 0
  else if 64 ≤ v then 1
  else if 32 ≤ v then 2
  else if 16 ≤ v then 3
  else if 8 ≤ v then 4
  else if 4 ≤ v then 5
  else if 2 ≤ v then 6
  else if 1 ≤ v then 7
  else 8

/-- `power_of_two` (src/utility/mod.rs): `1 << exponent` (the source
asserts `exponent <= 31`). -/
def power_of_two (exponent : Nat) : Nat := 2 ^ exponent

/-- The byte-scanning loop of `leading_zeros`, accumulating the zero-run
count; `needed` is the `Needed::Size` value reported when the buffer ends
inside the run (`index + 2` in the source, precomputed by the wrapper). -/
def leading_zeros_go (needed : Nat) (acc : Nat) :
    List Nat → Nat → IRes BitInput Nat
  | [], _ => .incomplete (some needed)
  | b :: rest, offset =>
    let byte := (b * 2 ^ offset) % 256
    if byte > 0 then
      let zeros := clz8 byte
      let count := acc + zeros
      let offset2 := offset + zeros + 1
      if 8 ≤ offset2 then .done (rest, offset2 - 8) count
      else .done (b :: rest, offset2) count
    else
      leading_zeros_go needed (acc + (8 - offset)) rest 0

/-- `leading_zeros` (src/subframe/parser.rs lines 15-54): count the zero
bits from the cursor until the first set bit and consume through that
bit; when the buffer ends inside the zero run the parse is incomplete
(the source's `Needed::Size(index + 2)`, which is `2` on an empty buffer
and `len + 1` otherwise — its error branch is unreachable). -/
def leading_zeros (input : BitInput) : IRes BitInput Nat :=
  let needed := if input.1.isEmpty then 2 else input.1.length + 1
  leading_zeros_go needed 0 input.1 input.2

/-- The bit at absolute position `pos` (MSB-first within each byte). -/
def bit_at (bytes : List Nat) (pos : Nat) : Nat :=
  (bytes.getD (pos / 8) 0 / 2 ^ (7 - pos % 8)) % 2

/-- The `n` bits starting at absolute bit position `start`, assembled
MSB-first. -/
def read_bits (bytes : List Nat) (start n : Nat) : Nat :=
  (List.range n).foldl (fun acc j => acc * 2 + bit_at bytes (start + j)) 0

/-- nom `take_bits!(u32, n)`: read `n` bits MSB-first into a `u32`
accumulator (modelled `% 2^32`) and advance the cursor. -/
def take_bits (n : Nat) (input : BitInput) : IRes BitInput Nat :=
  if n = 0 then .done input 0
  else if input.1.length * 8 < input.2 + n then .incomplete (some n)
  else
    let endPos := input.2 + n
    .done (input.1.drop (endPos / 8), endPos % 8)
      (read_bits input.1 input.2 n % 2 ^ 32)

/-- The sign extension of `take_signed_bits!` (src/utility/macros.rs lines
107-122): a `count`-bit value below `2^(count-1)` is non-negative,
otherwise `2^count` is subtracted; a `count` of 32 or more passes the
value through as a signed 32-bit reinterpretation. -/
def extend_sign_bits (count : Nat) (value : Nat) : Int :=
  if 32 ≤ count then toSigned32 value
  else if value < 2 ^ (count - 1) then (value : Int)
  else (value : Int) - 2 ^ count

/-- `take_signed_bits!(count)` (src/utility/macros.rs): `take_bits`
followed by sign extension. -/
def take_signed_bits (count : Nat) (input : BitInput) : IRes BitInput Int :=
  (take_bits count input).map (extend_sign_bits count)

/-- The zig-zag decoding of one encoded Rice value
(src/subframe/parser.rs lines 365-372): reinterpret the `u32` as an
`i32` and compute `(value >> 1) ^ -(value & 1)`. -/
def rice_decode_value (value : Nat) : Int :=
  let v := toSigned32 value
  xorI (sar v 1) (-(andI v 1))

/-! ### Rice residual partitions — `src/subframe/parser.rs` -/

namespace subframe

/-- `CodingMethod` (src/subframe/types.rs). -/
inductive CodingMethod where
  | partitionedRice
  | partitionedRice2
deriving DecidableEq, Repr

/-- The Rice parameter width for a coding method (src/subframe/parser.rs
lines 269-272). -/
def param_size : CodingMethod → Nat
  | .partitionedRice => 4
  | .partitionedRice2 => 5

/-- The all-ones escape code for a coding method (src/subframe/parser.rs
lines 269-272). -/
def escape_code : CodingMethod → Nat
  | .partitionedRice => 0b1111
  | .partitionedRice2 => 0b11111

/-- `PartitionedRiceContents`: the per-partition Rice parameters and
raw-bit widths (the source packs both halves into one backing vector;
the embedding keeps them as two lists). -/
structure PartitionedRiceContents where
  parameters : List Nat
  raw_bits : List Nat
deriving DecidableEq, Repr

/-- `PartitionedRice` (src/subframe/types.rs). -/
structure PartitionedRice where
  order : Nat
  contents : PartitionedRiceContents
deriving DecidableEq, Repr

/-- `EntropyCodingMethod` (src/subframe/types.rs). -/
structure EntropyCodingMethod where
  method_type : CodingMethod
  data : PartitionedRice
deriving DecidableEq, Repr

/-- `encoded_residuals` (src/subframe/parser.rs lines 350-398): decode
`n` Rice-coded samples — unary quotient, `parameter`-bit remainder,
`value = quotient * 2^parameter + remainder` in wrapping `u32`
arithmetic, then zig-zag; a failed inner parse yields an error, an
incomplete one the source's `Needed::Unknown`. -/
def encoded_residuals (parameter : Nat) :
    Nat → BitInput → IRes BitInput (List Int)
  | 0, input => .done input []
  | n + 1, input =>
    match leading_zeros input with
    | .done i1 quotient =>
      match take_bits parameter i1 with
      | .done i2 remainder =>
        let value := (quotient * power_of_two parameter + remainder) % 2 ^ 32
        match encoded_residuals parameter n i2 with
        | .done i3 rest => .done i3 (rice_decode_value value :: rest)
        | .error => .error
        | .incomplete _ => .incomplete none
      | .error => .error
      | .incomplete _ => .incomplete none
    | .error => .error
    | .incomplete _ => .incomplete none

/-- `unencoded_residuals` (src/subframe/parser.rs lines 340-348): `n`
raw `bits_per_sample`-bit signed samples (`count_slice!` semantics: an
inner error fails, an inner incomplete reports `Needed::Unknown`). -/
def unencoded_residuals (bits_per_sample : Nat) :
    Nat → BitInput → IRes BitInput (List Int)
  | 0, input => .done input []
  | n + 1, input =>
    match take_signed_bits bits_per_sample input with
    | .done i1 s =>
      match unencoded_residuals bits_per_sample n i1 with
      | .done i2 rest => .done i2 (s :: rest)
      | .error => .error
      | .incomplete _ => .incomplete none
    | .error => .error
    | .incomplete _ => .incomplete none

/-- `residual_data` (src/subframe/parser.rs lines 327-338): dispatch on
the optional escape raw-bit width, also yielding the `raw_bit` value the
source records per partition (the width for an escaped partition, `0`
otherwise). -/
def residual_data (size? : Option Nat) (rice_parameter : Nat) (count : Nat)
    (input : BitInput) : IRes BitInput (Nat × List Int) :=
  match size? with
  | some size => (unencoded_residuals size count input).map (fun s => (size, s))
  | none => (encoded_residuals rice_parameter count input).map (fun s => (0, s))

/-- The partition loop of `rice_partition` (src/subframe/parser.rs lines
282-314), parsing the partitions still remaining; the partition index is
`partitions - remaining` and each iteration yields the Rice parameter,
the raw-bit width and the partition's decoded samples. -/
def rice_partition_go (psize esc partition_order predictor_order
    block_size partitions : Nat) :
    Nat → BitInput → IRes BitInput (List (Nat × Nat × List Int))
  | 0, input => .done input []
  | remaining + 1, input =>
    let partition := partitions - (remaining + 1)
    let offset :=
      if partition_order = 0 then block_size - predictor_order
      else if partition > 0 then block_size / partitions
      else block_size / partitions - predictor_order
    (take_bits psize input).bind fun i1 rice_parameter =>
    (if rice_parameter = esc then (take_bits 5 i1).map some
      else .done i1 none).bind fun i2 size? =>
    (residual_data size? rice_parameter offset i2).bind fun i3 rb =>
    (rice_partition_go psize esc partition_order predictor_order block_size
        partitions remaining i3).map
      (fun rest => (rice_parameter, rb.1, rb.2) :: rest)

/-- `rice_partition` (src/subframe/parser.rs lines 261-325): parse
`2^partition_order` partitions, returning the entropy-coding-method
header (partition order, per-partition parameters and raw-bit widths)
and the concatenation of all decoded residual samples (which the source
writes into the shared output buffer past the warm-up samples). -/
def rice_partition (input : BitInput) (partition_order predictor_order
    block_size : Nat) (method : CodingMethod) :
    IRes BitInput (EntropyCodingMethod × List Int) :=
  let partitions := power_of_two partition_order
  (rice_partition_go (param_size method) (escape_code method)
      partition_order predictor_order block_size partitions partitions
      input).map
    fun parts =>
      ({ method_type := method
         data := { order := partition_order
                   contents := { parameters := parts.map (fun q => q.1)
                                 raw_bits := parts.map (fun q => q.2.1) } } },
       (parts.map (fun q => q.2.2)).flatten)

/-- `coding_method` (src/subframe/parser.rs lines 237-246): two bits, `0`
is Rice, `1` is Rice2, anything else an error. -/
def coding_method (input : BitInput) : IRes BitInput CodingMethod :=
  (take_bits 2 input).bind fun i method =>
    if method = 0 then .done i .partitionedRice
    else if method = 1 then .done i .partitionedRice2
    else .error

/-- `residual` (src/subframe/parser.rs lines 248-259): the coding method,
a 4-bit partition order, then the partitions. -/
def residual (input : BitInput) (predictor_order block_size : Nat) :
    IRes BitInput (EntropyCodingMethod × List Int) :=
  (coding_method input).bind fun i1 method =>
  (take_bits 4 i1).bind fun i2 order =>
  rice_partition i2 order predictor_order block_size method

/-! #### The specification-level description of the partition layout -/

/-- The partition sample counts exactly as the claim states them:
`n - p` for partition order zero, otherwise `n / 2^k - p` for the first
partition and `n / 2^k` for each of the `2^k - 1` later ones. -/
def rice_partition_counts (k p n : Nat) : List Nat :=
  if k = 0 then [n - p]
  else (n / 2 ^ k - p) :: List.replicate (2 ^ k - 1) (n / 2 ^ k)

/-- One Rice-coded sample as the claim describes it: `q` the unary
zero-run count, `m` the next `r`-bit unsigned value, and the sample the
zig-zag decoding of `u = q * 2^r + m` (in the source's wrapping `u32`
arithmetic). -/
def rice_sample_spec (r : Nat) (input : BitInput) : IRes BitInput Int :=
  (leading_zeros input).bind fun i1 q =>
  (take_bits r i1).bind fun i2 m =>
    .done i2 (rice_decode_value ((q * 2 ^ r + m) % 2 ^ 32))

/-- `n` claim-level Rice samples in sequence (with the source's
incomplete-to-`Needed::Unknown` bookkeeping, so that the correspondence
with `encoded_residuals` is a plain equality). -/
def rice_samples_spec (r : Nat) : Nat → BitInput → IRes BitInput (List Int)
  | 0, input => .done input []
  | n + 1, input =>
    match rice_sample_spec r input with
    | .done i1 s =>
      match rice_samples_spec r n i1 with
      | .done i2 rest => .done i2 (s :: rest)
      | .error => .error
      | .incomplete _ => .incomplete none
    | .error => .error
    | .incomplete _ => .incomplete none

/-- The claim-level partition reader: one partition per entry of the
sample-count list — an `psize`-bit Rice parameter, then either the
escape (5-bit raw width and that many raw signed samples) or the
claimed quotient/remainder/zig-zag pipeline. -/
def rice_partitions_spec (psize esc : Nat) :
    List Nat → BitInput → IRes BitInput (List (Nat × Nat × List Int))
  | [], input => .done input []
  | count :: counts, input =>
    (take_bits psize input).bind fun i1 r =>
    if r = esc then
      (take_bits 5 i1).bind fun i2 size =>
      (unencoded_residuals size count i2).bind fun i3 samples =>
      (rice_partitions_spec psize esc counts i3).map ((r, size, samples) :: ·)
    else
      (rice_samples_spec r count i1).bind fun i2 samples =>
      (rice_partitions_spec psize esc counts i2).map ((r, 0, samples) :: ·)

end subframe

/-! #### C1: the partition layout and per-sample decoding -/

namespace subframe

/-- Decoding one Rice-coded sample per the claim's pipeline coincides
with the loop body of `encoded_residuals`. -/
theorem encoded_eq_samples_spec (r : Nat) :
    ∀ (n : Nat) (input : BitInput),
      encoded_residuals r n input = rice_samples_spec r n input := by
  intro n
  induction n with
  | zero => intro input; rfl
  | succ n ih =>
    intro input
    simp only [encoded_residuals, rice_samples_spec, rice_sample_spec]
    cases hlz : leading_zeros input with
    | done i1 q =>
      simp only [IRes.bind]
      cases htb : take_bits r i1 with
      | done i2 m => simp only [IRes.bind, power_of_two, ih]
      | error => simp only [IRes.bind]
      | incomplete k => simp only [IRes.bind]
    | error => simp only [IRes.bind]
    | incomplete k => simp only [IRes.bind]

/-- A successful `rice_samples_spec` parse yields exactly `n` samples. -/
theorem rice_samples_spec_length (r : Nat) :
    ∀ (n : Nat) (input i : BitInput) (out : List Int),
      rice_samples_spec r n input = .done i out → out.length = n := by
  intro n
  induction n with
  | zero =>
    intro input i out h
    simp only [rice_samples_spec] at h
    cases h
    rfl
  | succ n ih =>
    intro input i out h
    simp only [rice_samples_spec] at h
    split at h
    · split at h
      · rename_i h2
        cases h
        simp only [List.length_cons]
        rw [ih _ _ _ h2]
      · cases h
      · cases h
    · cases h
    · cases h

/-- A successful `unencoded_residuals` parse yields exactly `n`
samples. -/
theorem unencoded_residuals_length (b : Nat) :
    ∀ (n : Nat) (input i : BitInput) (out : List Int),
      unencoded_residuals b n input = .done i out → out.length = n := by
  intro n
  induction n with
  | zero =>
    intro input i out h
    simp only [unencoded_residuals] at h
    cases h
    rfl
  | succ n ih =>
    intro input i out h
    simp only [unencoded_residuals] at h
    split at h
    · split at h
      · rename_i h2
        cases h
        simp only [List.length_cons]
        rw [ih _ _ _ h2]
      · cases h
      · cases h
    · cases h
    · cases h

/-- A successful claim-level partition parse decodes, partition by
partition, exactly the numbers of samples listed in `counts`. -/
theorem rice_partitions_spec_lengths (psize esc : Nat) :
    ∀ (counts : List Nat) (input i : BitInput)
      (parts : List (Nat × Nat × List Int)),
      rice_partitions_spec psize esc counts input = .done i parts →
      parts.map (fun q => q.2.2.length) = counts := by
  intro counts
  induction counts with
  | nil =>
    intro input i parts h
    simp only [rice_partitions_spec] at h
    cases h
    rfl
  | cons count counts ih =>
    intro input i parts h
    simp only [rice_partitions_spec] at h
    cases h1 : take_bits psize input with
    | done i1 r =>
      rw [h1] at h
      simp only [IRes.bind] at h
      by_cases hesc : r = esc
      · rw [if_pos hesc] at h
        cases h2 : take_bits 5 i1 with
        | done i2 size =>
          rw [h2] at h
          simp only [IRes.bind] at h
          cases h3 : unencoded_residuals size count i2 with
          | done i3 samples =>
            rw [h3] at h
            simp only [IRes.bind] at h
            cases h4 : rice_partitions_spec psize esc counts i3 with
            | done i4 rest =>
              rw [h4] at h
              simp only [IRes.map] at h
              cases h
              simp only [List.map_cons]
              rw [ih _ _ _ h4, unencoded_residuals_length _ _ _ _ _ h3]
            | error => rw [h4] at h; simp only [IRes.map] at h; cases h
            | incomplete k => rw [h4] at h; simp only [IRes.map] at h; cases h
          | error => rw [h3] at h; simp only [IRes.bind] at h; cases h
          | incomplete k => rw [h3] at h; simp only [IRes.bind] at h; cases h
        | error => rw [h2] at h; simp only [IRes.bind] at h; cases h
        | incomplete k => rw [h2] at h; simp only [IRes.bind] at h; cases h
      · rw [if_neg hesc] at h
        cases h2 : rice_samples_spec r count i1 with
        | done i2 samples =>
          rw [h2] at h
          simp only [IRes.bind] at h
          cases h4 : rice_partitions_spec psize esc counts i2 with
          | done i4 rest =>
            rw [h4] at h
            simp only [IRes.map] at h
            cases h
            simp only [List.map_cons]
            rw [ih _ _ _ h4, rice_samples_spec_length _ _ _ _ _ h2]
          | error => rw [h4] at h; simp only [IRes.map] at h; cases h
          | incomplete k => rw [h4] at h; simp only [IRes.map] at h; cases h
        | error => rw [h2] at h; simp only [IRes.bind] at h; cases h
        | incomplete k => rw [h2] at h; simp only [IRes.bind] at h; cases h
    | error => rw [h1] at h; simp only [IRes.bind] at h; cases h
    | incomplete k => rw [h1] at h; simp only [IRes.bind] at h; cases h

/-- One unfolding step of the source's partition loop coincides with one
claim-level partition whenever the source's `offset` expression for the
current partition index equals the claimed count and the remaining loop
coincides with the remaining counts. -/
theorem rice_go_step (psize esc k p n P r' count : Nat) (counts : List Nat)
    (hoff : (if k = 0 then n - p
             else if P - (r' + 1) > 0 then n / P else n / P - p) = count)
    (hrec : ∀ input, rice_partition_go psize esc k p n P r' input =
        rice_partitions_spec psize esc counts input) :
    ∀ input, rice_partition_go psize esc k p n P (r' + 1) input =
      rice_partitions_spec psize esc (count :: counts) input := by
  intro input
  simp only [rice_partition_go, rice_partitions_spec, hoff]
  cases h1 : take_bits psize input with
  | done i1 r =>
    simp only [IRes.bind]
    by_cases hesc : r = esc
    · rw [if_pos hesc, if_pos hesc]
      cases h2 : take_bits 5 i1 with
      | done i2 size =>
        simp only [IRes.map, IRes.bind, residual_data]
        cases h3 : unencoded_residuals size count i2 with
        | done i3 samples => simp only [IRes.map, IRes.bind, hrec]
        | error => simp only [IRes.map, IRes.bind]
        | incomplete j => simp only [IRes.map, IRes.bind]
      | error => simp only [IRes.map, IRes.bind]
      | incomplete j => simp only [IRes.map, IRes.bind]
    · rw [if_neg hesc, if_neg hesc]
      simp only [IRes.bind, residual_data, encoded_eq_samples_spec]
      cases h2 : rice_samples_spec r count i1 with
      | done i2 samples => simp only [IRes.map, IRes.bind, hrec]
      | error => simp only [IRes.map, IRes.bind]
      | incomplete j => simp only [IRes.map, IRes.bind]
  | error => simp only [IRes.bind]
  | incomplete j => simp only [IRes.bind]

/-- Every iteration of the partition loop past the first parses a
partition of `n / P` samples (for a non-zero partition order). -/
theorem rice_go_tail (psize esc k p n P : Nat) (hk : k ≠ 0) :
    ∀ (r : Nat), r < P →
      ∀ input, rice_partition_go psize esc k p n P r input =
        rice_partitions_spec psize esc (List.replicate r (n / P)) input := by
  intro r
  induction r with
  | zero => intro _ input; rfl
  | succ r' ih =>
    intro hr input
    have hcons : List.replicate (r' + 1) (n / P) =
        (n / P) :: List.replicate r' (n / P) := rfl
    rw [hcons]
    refine rice_go_step psize esc k p n P r' (n / P)
      (List.replicate r' (n / P)) ?_ (fun i => ih (by omega) i) input
    rw [if_neg hk, if_pos (by omega)]

end subframe

/-- C1: For every residual section with coding method Rice or Rice2,
partition order `k`, predictor order `p` and block size `n`, the parser
reads `2^k` partitions whose sample counts are `n - p` when `k = 0`, and
otherwise `n / 2^k - p` for the first partition and `n / 2^k` for every
later partition; and within every non-escaped partition with Rice
parameter `r`, each residual sample equals the zig-zag decoding
`(u >> 1) XOR -(u AND 1)` of `u = q * 2^r + m`, where `q` is the unary
zero-run count and `m` is the next `r`-bit unsigned value.  Stated as:
the source's `rice_partition` coincides (on every input) with the
claim-level reader `rice_partitions_spec` driven by the claimed count
list — whose length is `2^k` and whose per-sample pipeline is
`rice_sample_spec` — and a successful parse decodes exactly the claimed
number of samples in each partition. -/
theorem claim_C1 (k p n : Nat) (method : subframe.CodingMethod)
    (input : BitInput) :
    (subframe.rice_partition_counts k p n).length = 2 ^ k ∧
    subframe.rice_partition input k p n method =
      (subframe.rice_partitions_spec (subframe.param_size method)
          (subframe.escape_code method)
          (subframe.rice_partition_counts k p n) input).map
        (fun parts =>
          ({ method_type := method
             data := { order := k
                       contents :=
                         { parameters := parts.map (fun q => q.1)
                           raw_bits := parts.map (fun q => q.2.1) } } },
           (parts.map (fun q => q.2.2)).flatten)) ∧
    (∀ (i : BitInput) (parts : List (Nat × Nat × List Int)),
      subframe.rice_partitions_spec (subframe.param_size method)
          (subframe.escape_code method)
          (subframe.rice_partition_counts k p n) input = .done i parts →
      parts.map (fun q => q.2.2.length) =
        subframe.rice_partition_counts k p n) := by
  have hpow : 1 ≤ 2 ^ k := Nat.one_le_two_pow
  refine ⟨?_, ?_, ?_⟩
  · by_cases hk : k = 0
    · simp [subframe.rice_partition_counts, hk]
    · simp only [subframe.rice_partition_counts, if_neg hk,
        List.length_cons, List.length_replicate]
      omega
  · have hgo : ∀ inp, subframe.rice_partition_go
        (subframe.param_size method) (subframe.escape_code method)
        k p n (2 ^ k) (2 ^ k) inp =
        subframe.rice_partitions_spec (subframe.param_size method)
          (subframe.escape_code method)
          (subframe.rice_partition_counts k p n) inp := by
      intro inp
      by_cases hk : k = 0
      · subst hk
        simp only [pow_zero, subframe.rice_partition_counts, if_pos rfl]
        exact subframe.rice_go_step _ _ 0 p n 1 0 (n - p) [] (by simp)
          (fun _ => rfl) inp
      · obtain ⟨m, hm⟩ : ∃ m, 2 ^ k = m + 1 := ⟨2 ^ k - 1, by omega⟩
        simp only [subframe.rice_partition_counts, if_neg hk]
        rw [hm]
        simp only [Nat.add_sub_cancel]
        exact subframe.rice_go_step _ _ k p n (m + 1) m (n / (m + 1) - p)
          (List.replicate m (n / (m + 1)))
          (by rw [if_neg hk, if_neg (by omega)])
          (subframe.rice_go_tail _ _ k p n (m + 1) hk m (by omega)) inp
    simp only [subframe.rice_partition, power_of_two, hgo]
  · intro i parts h
    exact subframe.rice_partitions_spec_lengths _ _ _ input i parts h

/-- C1 witness: the order-4, block-size-10 residual of the source's
`test_fixed` vector (one Rice partition, parameter 8) instantiating the
inner implication of the claim theorem at its concrete successful
parse. -/
theorem claim_C1_witness :
    subframe.rice_partitions_spec 4 15 (subframe.rice_partition_counts 0 4 10)
        ([0x02, 0x01, 0x04, 0x80, 0x42, 0x92, 0x84, 0x65, 0x64], 6) =
      .done ([], 0) [(8, 0, [642, 0, 5, 148, -141, 178])] ∧
    ([((8 : Nat), (0 : Nat), [(642 : Int), 0, 5, 148, -141, 178])].map
        (fun q => q.2.2.length)) =
      subframe.rice_partition_counts 0 4 10 :=
  ⟨by decide,
   (claim_C1 0 4 10 .partitionedRice
      ([0x02, 0x01, 0x04, 0x80, 0x42, 0x92, 0x84, 0x65, 0x64], 6)).2.2
     ([], 0) [(8, 0, [642, 0, 5, 148, -141, 178])] (by decide)⟩

/-! ### Frame header data model — `src/frame/types.rs`

(The header parser itself comes later; the subframe parser needs the
header record and the channel assignment.) -/

namespace frame

/-- `NumberType` (src/frame/types.rs): frame- or sample-numbering. -/
inductive NumberType where
  | frame (n : Nat)
  | sample (n : Nat)
deriving DecidableEq, Repr

/-- `Header` (src/frame/types.rs). -/
structure Header where
  block_size : Nat
  sample_rate : Nat
  channels : Nat
  channel_assignment : ChannelAssignment
  bits_per_sample : Nat
  number : NumberType
  crc : Nat
deriving DecidableEq, Repr

end frame

/-! ### Subframe parsing — `src/subframe/parser.rs` -/

namespace subframe

/-- `Fixed` (src/subframe/types.rs).  The source stores the warm-up in a
fixed `MAX_FIXED_ORDER` array padded with zeros and leaves `residual`
empty (the parser deposits the decoded residual in the shared output
buffer); the embedding keeps the `order` warm-up samples and carries the
decoded residual in the record itself. -/
structure Fixed where
  entropy_coding_method : EntropyCodingMethod
  order : Nat
  warmup : List Int
  residual : List Int
deriving DecidableEq, Repr

/-- `LPC` (src/subframe/types.rs), with the same warm-up/residual
modelling as `Fixed`. -/
structure LPC where
  entropy_coding_method : EntropyCodingMethod
  order : Nat
  qlp_coeff_precision : Nat
  quantization_level : Int
  qlp_coefficients : List Int
  warmup : List Int
  residual : List Int
deriving DecidableEq, Repr

/-- `Data` (src/subframe/types.rs). -/
inductive Data where
  | constant (value : Int)
  | verbatim (samples : List Int)
  | fixed (f : Fixed)
  | lpc (l : LPC)
deriving DecidableEq, Repr

/-- `Subframe` (src/subframe/types.rs). -/
structure Subframe where
  data : Data
  wasted_bits : Nat
deriving DecidableEq, Repr

/-- `header` (src/subframe/parser.rs lines 122-135): top bit must be
zero; bits 6..1 are the type code, bit 0 flags a wasted-bits prefix. -/
def header (input : BitInput) : IRes BitInput (Nat × Bool) :=
  (take_bits 8 input).bind fun i byte =>
    if byte / 2 ^ 7 = 0 then .done i ((byte / 2) % 2 ^ 6, byte % 2 = 1)
    else .error

/-- `constant` (src/subframe/parser.rs lines 155-158). -/
def constant (input : BitInput) (bits_per_sample : Nat) :
    IRes BitInput Data :=
  (take_signed_bits bits_per_sample input).map Data.constant

/-- `verbatim` (src/subframe/parser.rs lines 227-233): `block_size`
signed samples (`count!` runs the same `take_signed_bits!` loop as
`unencoded_residuals`, differing only in allocation). -/
def verbatim (input : BitInput) (bits_per_sample block_size : Nat) :
    IRes BitInput Data :=
  (unencoded_residuals bits_per_sample block_size input).map Data.verbatim

/-- `fixed` (src/subframe/parser.rs lines 160-180): `order` warm-up
samples (the same `count_slice!` loop as `unencoded_residuals`), then
the residual partitions. -/
def fixed (input : BitInput) (order bits_per_sample block_size : Nat) :
    IRes BitInput Data :=
  (unencoded_residuals bits_per_sample order input).bind fun i1 warmup =>
  (residual i1 order block_size).bind fun i2 es =>
    .done i2 (.fixed
      { entropy_coding_method := es.1, order := order, warmup := warmup
        residual := es.2 })

/-- `qlp_coefficient_precision` (src/subframe/parser.rs lines 184-193):
four bits, all-ones is invalid, otherwise the precision is the value
plus one. -/
def qlp_coefficient_precision (input : BitInput) : IRes BitInput Nat :=
  (take_bits 4 input).bind fun i precision =>
    if precision = 0b1111 then .error else .done i (precision + 1)

/-- `lpc` (src/subframe/parser.rs lines 195-225): warm-up samples,
4-bit coefficient precision, 5-bit signed quantization level, `order`
signed coefficients of that precision, then the residual partitions. -/
def lpc (input : BitInput) (order bits_per_sample block_size : Nat) :
    IRes BitInput Data :=
  (unencoded_residuals bits_per_sample order input).bind fun i1 warmup =>
  (qlp_coefficient_precision i1).bind fun i2 qlp_coeff_precision =>
  (take_signed_bits 5 i2).bind fun i3 quantization_level =>
  (unencoded_residuals qlp_coeff_precision order i3).bind
    fun i4 qlp_coefficients =>
  (residual i4 order block_size).bind fun i5 es =>
    .done i5 (.lpc
      { entropy_coding_method := es.1, order := order
        qlp_coeff_precision := qlp_coeff_precision
        quantization_level := quantization_level
        qlp_coefficients := qlp_coefficients, warmup := warmup
        residual := es.2 })

/-- `data` (src/subframe/parser.rs lines 137-153): dispatch on the
subframe type code — 0 constant, 1 verbatim, 8..12 fixed of order
`code & 0b0111`, 32..63 LPC of order `(code & 0b011111) + 1`, all other
codes invalid. -/
def data (input : BitInput) (bits_per_sample block_size subframe_type : Nat) :
    IRes BitInput Data :=
  if subframe_type = 0 then constant input bits_per_sample
  else if subframe_type = 1 then verbatim input bits_per_sample block_size
  else if 8 ≤ subframe_type ∧ subframe_type ≤ 12 then
    fixed input (subframe_type % 8) bits_per_sample block_size
  else if 32 ≤ subframe_type ∧ subframe_type ≤ 63 then
    lpc input (subframe_type % 32 + 1) bits_per_sample block_size
  else .error

/-- `adjust_bits_per_sample` (src/subframe/parser.rs lines 59-82): the
side channel (channel 1 for left/side and mid/side, channel 0 for
side/right) carries one extra bit. -/
def adjust_bits_per_sample (frame_header : frame.Header) (channel : Nat) :
    Nat :=
  match frame_header.channel_assignment with
  | .independent => frame_header.bits_per_sample
  | .leftSide | .midpointSide =>
    if channel = 1 then frame_header.bits_per_sample + 1
    else frame_header.bits_per_sample
  | .rightSide =>
    if channel = 0 then frame_header.bits_per_sample + 1
    else frame_header.bits_per_sample

/-- `subframe_parser` (src/subframe/parser.rs lines 85-117): the header
byte; a unary zero-run plus one as the wasted-bits count when flagged
(`map_or(0, |zeros| zeros + 1)`), zero otherwise; then the body at the
channel-adjusted sample width minus the wasted bits (a `usize`
subtraction, which would panic if the count exceeded the width —
modelled truncated).  The caller advances the channel index. -/
def subframe_parse (input : BitInput) (frame_header : frame.Header)
    (channel : Nat) : IRes BitInput Subframe :=
  let block_size := frame_header.block_size
  let bits_per_sample := adjust_bits_per_sample frame_header channel
  (header input).bind fun i1 sh =>
  (if sh.2 then (leading_zeros i1).map (fun zeros => zeros + 1)
    else .done i1 0).bind fun i2 wasted_bits =>
  (data i2 (bits_per_sample - wasted_bits) block_size sh.1).bind fun i3 d =>
    .done i3 { data := d, wasted_bits := wasted_bits }

/-! #### Signal reconstruction — `src/subframe/decoder.rs` -/

/-- The fixed-order polynomial table (src/subframe/decoder.rs lines
18-23); orders above 4 are out of contract (`debug_assert` plus an
unchecked access in the source). -/
def fixed_polynomial : Nat → List Int
  | 0 => []
  | 1 => [1]
  | 2 => [-1, 2]
  | 3 => [1, -3, 3]
  | 4 => [-1, 4, -6, 4]
  | _ => []

/-- The prediction fold shared by both restorers:
`coefficients.iter().zip(&output[i..offset]).fold(0, |r, (c, s)| r + c * s)`. -/
def predict (coefficients window : List Int) : Int :=
  (coefficients.zip window).foldl (fun result cs => result + cs.1 * cs.2) 0

/-- The loop of `fixed_restore_signal`: `len` iterations starting at
index `i`, each adding the prediction over `output[i..i+order]` into
`output[i + order]`. -/
def fixed_restore_go (coefficients : List Int) (order : Nat) :
    Nat → Nat → List Int → List Int
  | 0, _, output => output
  | len + 1, i, output =>
    let offset := i + order
    let prediction := predict coefficients ((output.drop i).take order)
    fixed_restore_go coefficients order len (i + 1)
      (output.set offset (output.getD offset 0 + prediction))

/-- `fixed_restore_signal` (src/subframe/decoder.rs lines 13-39). -/
def fixed_restore_signal (order block_size : Nat) (output : List Int) :
    List Int :=
  fixed_restore_go (fixed_polynomial order) order (block_size - order) 0
    output

/-- The loop of `lpc_restore_signal`: as the fixed one, but with the
coefficients reversed and the prediction arithmetically right-shifted by
the quantization level before the add.  The quantization level is a
5-bit signed value in the bitstream; a negative shift would panic in the
source, so the model shifts by `q.toNat` (zero for negative `q`). -/
def lpc_restore_go (coefficients : List Int) (q : Int) (order : Nat) :
    Nat → Nat → List Int → List Int
  | 0, _, output => output
  | len + 1, i, output =>
    let offset := i + order
    let prediction := predict coefficients.reverse ((output.drop i).take order)
    lpc_restore_go coefficients q order len (i + 1)
      (output.set offset (output.getD offset 0 + sar prediction q.toNat))

/-- `lpc_restore_signal` (src/subframe/decoder.rs lines 56-75); the
order is the coefficient count. -/
def lpc_restore_signal (quantization_level : Int) (block_size : Nat)
    (coefficients : List Int) (output : List Int) : List Int :=
  lpc_restore_go coefficients quantization_level coefficients.length
    (block_size - coefficients.length) 0 output

/-- `decode` (src/subframe/decoder.rs lines 87-133).  In the source the
caller's buffer already holds the parsed residual at positions past the
warm-up and `decode` overwrites the warm-up prefix from the subframe
record; the embedding reconstitutes that buffer as
`warmup ++ residual`.  After the body, every sample is left-shifted by
the wasted-bits count when it is non-zero. -/
def decode (sf : Subframe) (block_size : Nat) : List Int :=
  let body := match sf.data with
    | .constant c => List.replicate block_size c
    | .verbatim v => v
    | .fixed f =>
      fixed_restore_signal f.order block_size (f.warmup ++ f.residual)
    | .lpc l =>
      lpc_restore_signal l.quantization_level block_size
        (l.qlp_coefficients.take l.order) (l.warmup ++ l.residual)
  if sf.wasted_bits > 0 then body.map (fun v => shl v sf.wasted_bits)
  else body

end subframe

/-! #### C4: the wasted-bits prefix -/

/-- C4: For every subframe whose header byte signals a wasted-bits
prefix, the wasted-bits count equals the unary zero-run length `k` plus
1 and the body is read at the (channel-adjusted) sample width reduced by
that count; without the flag the count is 0 and the body is read at the
full width; and after decoding every output sample of the channel is
left-shifted by the wasted-bits count (a left shift by zero for
unflagged subframes, i.e. no shift). -/
theorem claim_C4 :
    (∀ (fh : frame.Header) (channel : Nat) (input i1 : BitInput) (t : Nat),
      subframe.header input = .done i1 (t, true) →
      subframe.subframe_parse input fh channel =
        (leading_zeros i1).bind fun i2 k =>
          (subframe.data i2
              (subframe.adjust_bits_per_sample fh channel - (k + 1))
              fh.block_size t).map
            (fun d => { data := d, wasted_bits := k + 1 })) ∧
    (∀ (fh : frame.Header) (channel : Nat) (input i1 : BitInput) (t : Nat),
      subframe.header input = .done i1 (t, false) →
      subframe.subframe_parse input fh channel =
        (subframe.data i1 (subframe.adjust_bits_per_sample fh channel)
            fh.block_size t).map
          (fun d => { data := d, wasted_bits := 0 })) ∧
    (∀ (d : subframe.Data) (w bs : Nat),
      subframe.decode { data := d, wasted_bits := w } bs =
        (subframe.decode { data := d, wasted_bits := 0 } bs).map
          (fun v => shl v w)) := by
  refine ⟨?_, ?_, ?_⟩
  · intro fh channel input i1 t h
    simp only [subframe.subframe_parse, h, IRes.bind]
    cases hlz : leading_zeros i1 with
    | done i2 k =>
      cases hd : subframe.data i2
          (subframe.adjust_bits_per_sample fh channel - (k + 1))
          fh.block_size t with
      | done i3 d => simp [IRes.map, IRes.bind, hd]
      | error => simp [IRes.map, IRes.bind, hd]
      | incomplete j => simp [IRes.map, IRes.bind, hd]
    | error => simp [IRes.map, IRes.bind]
    | incomplete j => simp [IRes.map, IRes.bind]
  · intro fh channel input i1 t h
    simp only [subframe.subframe_parse, h, IRes.bind]
    cases hd : subframe.data i1 (subframe.adjust_bits_per_sample fh channel)
        fh.block_size t with
    | done i3 d => simp [IRes.map, IRes.bind, hd]
    | error => simp [IRes.map, IRes.bind, hd]
    | incomplete j => simp [IRes.map, IRes.bind, hd]
  · intro d w bs
    cases w with
    | zero =>
      simp only [subframe.decode, Nat.lt_irrefl, if_false, gt_iff_lt]
      have hshl : ∀ v : Int, shl v 0 = v := by
        intro v
        cases v with
        | ofNat n => rfl
        | negSucc n => rfl
      simp [hshl]
    | succ w' =>
      simp only [subframe.decode, gt_iff_lt, Nat.succ_pos, if_true,
        Nat.lt_irrefl, if_false]

/-- C4 witness: a CONSTANT subframe with the wasted-bits flag, a unary
run of length 0 (count 1), and a 7-bit body: header byte `0x01`, then
bits `1` (terminating the run) and `0000010`; at base width 8 the body
is read at width 7 and yields the constant 2 with one wasted bit. -/
theorem claim_C4_witness :
    subframe.header ([0x01, 0x82], 0) = .done (([0x82], 0) : BitInput) (0, true) ∧
    subframe.subframe_parse ([0x01, 0x82], 0)
        { block_size := 4, sample_rate := 44100, channels := 1,
          channel_assignment := .independent, bits_per_sample := 8,
          number := .frame 0, crc := 0 } 0 =
      (leading_zeros (([0x82], 0) : BitInput)).bind fun i2 k =>
        (subframe.data i2
            (subframe.adjust_bits_per_sample
              { block_size := 4, sample_rate := 44100, channels := 1,
                channel_assignment := .independent, bits_per_sample := 8,
                number := .frame 0, crc := 0 } 0 - (k + 1)) 4 0).map
          (fun d => { data := d, wasted_bits := k + 1 }) :=
  ⟨by decide,
   (claim_C4.1
      { block_size := 4, sample_rate := 44100, channels := 1,
        channel_assignment := .independent, bits_per_sample := 8,
        number := .frame 0, crc := 0 } 0 ([0x01, 0x82], 0) ([0x82], 0) 0
      (by decide))⟩

/-! #### C2: LPC signal restoration -/

/-- `getD` through `set` at a different index. -/
theorem getD_set_ne (l : List Int) (i j : Nat) (v : Int) (h : i ≠ j) :
    (l.set i v).getD j 0 = l.getD j 0 := by
  rcases Nat.lt_or_ge j l.length with hj | hj
  · rw [List.getD_eq_getElem _ _ (by simpa using hj),
      List.getD_eq_getElem _ _ hj]
    exact List.getElem_set_ne h _
  · rw [List.getD_eq_default _ _ (by simpa using hj),
      List.getD_eq_default _ _ hj]

/-- `getD` through `set` at the set index. -/
theorem getD_set_eq (l : List Int) (i : Nat) (v : Int) (h : i < l.length) :
    (l.set i v).getD i 0 = v := by
  rw [List.getD_eq_getElem _ _ (by simpa using h)]
  exact List.getElem_set_self (by simpa using h)

/-- Indexing a `drop`-then-`take` window. -/
theorem getD_drop_take (l : List Int) (i o j : Nat) (hj : j < o)
    (hb : i + o ≤ l.length) :
    ((l.drop i).take o).getD j 0 = l.getD (i + j) 0 := by
  have h1 : j < ((l.drop i).take o).length := by
    simp only [List.length_take, List.length_drop]
    omega
  have h2 : i + j < l.length := by omega
  rw [List.getD_eq_getElem _ _ h1, List.getD_eq_getElem _ _ h2]
  rw [List.getElem_take, List.getElem_drop]

namespace subframe

/-- Shifting the accumulator out of the prediction fold. -/
theorem predict_foldl_shift (l : List (Int × Int)) :
    ∀ (c : Int),
      l.foldl (fun r p => r + p.1 * p.2) c =
        c + l.foldl (fun r p => r + p.1 * p.2) 0 := by
  induction l with
  | nil => intro c; simp
  | cons p l ih =>
    intro c
    simp only [List.foldl_cons]
    rw [ih (c + p.1 * p.2), ih (0 + p.1 * p.2)]
    ring

/-- The prediction fold is the pointwise product sum. -/
theorem predict_eq_sum :
    ∀ (a b : List Int),
      predict a b =
        ∑ j ∈ Finset.range (min a.length b.length),
          a.getD j 0 * b.getD j 0 := by
  intro a
  induction a with
  | nil => intro b; simp [predict]
  | cons x a ih =>
    intro b
    cases b with
    | nil => simp [predict]
    | cons y b =>
      simp only [predict, List.zip_cons_cons, List.foldl_cons]
      rw [predict_foldl_shift]
      have hpa : (a.zip b).foldl (fun r p => r + p.1 * p.2) 0 = predict a b :=
        rfl
      rw [hpa, ih b]
      simp only [List.length_cons, Nat.succ_min_succ, Finset.sum_range_succ',
        List.getD_cons_succ, List.getD_cons_zero]
      ring

/-- The prediction over the length-`order` window of `out` at `i`, with
the reversed coefficient list, is the claim's sum
`∑ c[order-1-j] * out[i+j]`. -/
theorem predict_window (c out : List Int) (i : Nat)
    (h : i + c.length ≤ out.length) :
    predict c.reverse ((out.drop i).take c.length) =
      ∑ j ∈ Finset.range c.length,
        c.getD (c.length - 1 - j) 0 * out.getD (i + j) 0 := by
  rw [predict_eq_sum]
  have hwin : ((out.drop i).take c.length).length = c.length := by
    simp only [List.length_take, List.length_drop]
    omega
  have hmin : min c.reverse.length ((out.drop i).take c.length).length =
      c.length := by
    rw [hwin, List.length_reverse]
    exact Nat.min_self _
  rw [hmin]
  refine Finset.sum_congr rfl ?_
  intro j hj
  rw [Finset.mem_range] at hj
  congr 1
  · rw [List.getD_eq_getElem _ _ (by simpa using hj),
      List.getD_eq_getElem _ _ (by omega : c.length - 1 - j < c.length)]
    rw [List.getElem_reverse]
  · exact getD_drop_take out i c.length j hj h

/-- The invariant of the `lpc_restore_signal` loop: starting at index
`i` with `len` iterations to go, the loop preserves the length, never
touches positions below `i + order`, and leaves each written position
`i + t + order` equal to its original value (the residual) plus the
right-shifted prediction over the final buffer. -/
theorem lpc_go_spec (c : List Int) (q : Int) :
    ∀ (len i : Nat) (out : List Int), i + len + c.length ≤ out.length →
      (lpc_restore_go c q c.length len i out).length = out.length ∧
      (∀ j, j < i + c.length →
        (lpc_restore_go c q c.length len i out).getD j 0 = out.getD j 0) ∧
      (∀ t, t < len →
        (lpc_restore_go c q c.length len i out).getD (i + t + c.length) 0 =
          out.getD (i + t + c.length) 0 +
            sar (∑ j ∈ Finset.range c.length,
                c.getD (c.length - 1 - j) 0 *
                  (lpc_restore_go c q c.length len i out).getD (i + t + j) 0)
              q.toNat) := by
  intro len
  induction len with
  | zero =>
    intro i out hb
    exact ⟨rfl, fun j _ => rfl, fun t ht => absurd ht (Nat.not_lt_zero t)⟩
  | succ len ih =>
    intro i out hb
    have hui : i + c.length < out.length := by omega
    have hstep : lpc_restore_go c q c.length (len + 1) i out =
        lpc_restore_go c q c.length len (i + 1)
          (out.set (i + c.length)
            (out.getD (i + c.length) 0 +
              sar (predict c.reverse ((out.drop i).take c.length))
                q.toNat)) := rfl
    set out1 : List Int := out.set (i + c.length)
        (out.getD (i + c.length) 0 +
          sar (predict c.reverse ((out.drop i).take c.length)) q.toNat)
      with hout1
    have hlen1 : out1.length = out.length := by
      rw [hout1]; exact List.length_set out _ _
    obtain ⟨ihlen, ihpre, ihrec⟩ := ih (i + 1) out1 (by omega)
    refine ⟨?_, ?_, ?_⟩
    · rw [hstep, ihlen, hlen1]
    · intro j hj
      rw [hstep, ihpre j (by omega), hout1]
      exact getD_set_ne out (i + c.length) j _ (by omega)
    · intro t ht
      cases t with
      | zero =>
        have hsum : (∑ j ∈ Finset.range c.length,
              c.getD (c.length - 1 - j) 0 *
                (lpc_restore_go c q c.length (len + 1) i out).getD
                  (i + 0 + j) 0) =
            ∑ j ∈ Finset.range c.length,
              c.getD (c.length - 1 - j) 0 * out.getD (i + j) 0 := by
          refine Finset.sum_congr rfl ?_
          intro j hj
          rw [Finset.mem_range] at hj
          congr 1
          have e1 : i + 0 + j = i + j := by omega
          rw [e1, hstep, ihpre (i + j) (by omega), hout1,
            getD_set_ne out (i + c.length) (i + j) _ (by omega)]
        rw [hsum]
        have e0 : i + 0 + c.length = i + c.length := by omega
        rw [e0, hstep, ihpre (i + c.length) (by omega), hout1,
          getD_set_eq out (i + c.length) _ hui,
          predict_window c out i (by omega)]
      | succ t' =>
        have e1 : i + (t' + 1) + c.length = i + 1 + t' + c.length := by
          omega
        rw [hstep, e1, ihrec t' (by omega), hout1,
          getD_set_ne out (i + c.length) (i + 1 + t' + c.length) _ (by omega)]
        congr 1
        congr 1
        refine Finset.sum_congr rfl ?_
        intro j hj
        congr 2
        omega

end subframe

/-- C2: For every LPC subframe of order `o` in 1..32 with quantized
coefficients `c`, quantization level `Q ≥ 0` and block size `n ≥ o`,
after the `o` warm-up samples occupy `output[0..o]` (they are left in
place by the restorer), the decoder sets, for each `i` in `0..(n-o)`,
`output[i+o] = residual[i] + ((∑ j, c[o-1-j] * output[i+j])
arithmetically right-shifted by Q)` — `residual[i]` being the value the
buffer held at `i+o` before restoration; in particular the spec's
order-7, quantization-level-9 example reconstructs exactly the listed 16
output samples. -/
theorem claim_C2 (q : Int) (bs : Nat) (c output : List Int)
    (hq : 0 ≤ q) (ho : 1 ≤ c.length) (ho32 : c.length ≤ 32)
    (hob : c.length ≤ bs) (hlen : output.length = bs) :
    (subframe.lpc_restore_signal q bs c output).length = bs ∧
    (∀ j, j < c.length →
      (subframe.lpc_restore_signal q bs c output).getD j 0 =
        output.getD j 0) ∧
    (∀ i, i < bs - c.length →
      (subframe.lpc_restore_signal q bs c output).getD (i + c.length) 0 =
        output.getD (i + c.length) 0 +
          sar (∑ j ∈ Finset.range c.length,
              c.getD (c.length - 1 - j) 0 *
                (subframe.lpc_restore_signal q bs c output).getD (i + j) 0)
            q.toNat) ∧
    subframe.lpc_restore_signal 9 16 [1042, -399, -75, -269, 121, 166, -75]
        [-796, -547, -285, -32, 199, 443, 670,
         -2, -23, 14, 6, 3, -4, 12, -2, 10] =
      [-796, -547, -285, -32, 199, 443, 670, 875, 1046, 1208, 1343, 1454,
       1541, 1616, 1663, 1701] := by
  have hb : 0 + (bs - c.length) + c.length ≤ output.length := by omega
  obtain ⟨hl, hpre, hrec⟩ := subframe.lpc_go_spec c q (bs - c.length) 0
    output hb
  refine ⟨?_, ?_, ?_, by decide⟩
  · rw [subframe.lpc_restore_signal, hl, hlen]
  · intro j hj
    exact hpre j (by omega)
  · intro i hi
    have e0 : i + c.length = 0 + i + c.length := by omega
    rw [subframe.lpc_restore_signal, e0, hrec i hi]
    congr 2
    refine Finset.sum_congr rfl ?_
    intro j hj
    congr 2
    omega

/-- C2 witness: the theorem applied at the spec's order-7,
quantization-level-9 example. -/
theorem claim_C2_witness :
    (0 : Int) ≤ 9 ∧
    subframe.lpc_restore_signal 9 16 [1042, -399, -75, -269, 121, 166, -75]
        [-796, -547, -285, -32, 199, 443, 670,
         -2, -23, 14, 6, 3, -4, 12, -2, 10] =
      [-796, -547, -285, -32, 199, 443, 670, 875, 1046, 1208, 1343, 1454,
       1541, 1616, 1663, 1701] :=
  ⟨by decide,
   (claim_C2 9 16 [1042, -399, -75, -269, 121, 166, -75]
      [-796, -547, -285, -32, 199, 443, 670,
       -2, -23, 14, 6, 3, -4, 12, -2, 10]
      (by decide) (by decide) (by decide) (by decide) (by decide)).2.2.2⟩

/-! ### CRC — `src/utility/crc.rs` is absent from the snapshot

The crate declares `mod crc; pub use self::crc::{crc8, crc16};`
(src/utility/mod.rs) and calls both from the frame parser, but the file
holding their implementation is not among the sources; the definitions
below are therefore modelled from the specification. -/

/-- Modelled from the spec: one shift step of the CRC-8 with polynomial
`0x07` (src/utility/crc.rs is missing; spec §4.1: "CRC-8 (poly 0x07,
init 0)"). -/
def crc8_step (r : Nat) : Nat :=
  if 128 ≤ r % 256 then (((r % 256) * 2) ^^^ 0x07) % 256
  else ((r % 256) * 2) % 256

/-- Modelled from the spec: absorb one byte into the CRC-8. -/
def crc8_byte (crc byte : Nat) : Nat :=
  (List.range 8).foldl (fun r _ => crc8_step r) ((crc ^^^ byte) % 256)

/-- Modelled from the spec: `crc8` — CRC-8, polynomial `0x07`, initial
value 0, over a whole-byte span (src/utility/crc.rs is missing from the
snapshot; only its declaration in src/utility/mod.rs and its callers in
src/frame/parser.rs remain). -/
def crc8 (bytes : List Nat) : Nat := bytes.foldl crc8_byte 0

/-- Modelled from the spec: one shift step of the CRC-16 with polynomial
`0x8005`. -/
def crc16_step (r : Nat) : Nat :=
  if 2 ^ 15 ≤ r % 2 ^ 16 then (((r % 2 ^ 16) * 2) ^^^ 0x8005) % 2 ^ 16
  else ((r % 2 ^ 16) * 2) % 2 ^ 16

/-- Modelled from the spec: absorb one byte into the CRC-16. -/
def crc16_byte (crc byte : Nat) : Nat :=
  (List.range 8).foldl (fun r _ => crc16_step r) ((crc ^^^ byte * 2 ^ 8) % 2 ^ 16)

/-- Modelled from the spec: `crc16` — CRC-16, polynomial `0x8005`,
initial value 0, over a whole-byte span (src/utility/crc.rs is missing
from the snapshot). -/
def crc16 (bytes : List Nat) : Nat := bytes.foldl crc16_byte 0

/-! ### Frame parsing — `src/frame/parser.rs` -/

namespace frame

/-- `Footer` (src/frame/types.rs): the stored CRC-16. -/
structure Footer where
  val : Nat
deriving DecidableEq, Repr

/-- `Frame` (src/frame/types.rs); the source holds a `MAX_CHANNELS`
array of which the first `channels` entries are filled, modelled as the
list of those entries. -/
structure Frame where
  header : Header
  subframes : List subframe.Subframe
  footer : Footer
deriving DecidableEq, Repr

/-- `blocking_strategy` (src/frame/parser.rs lines 74-93): the 14-bit
sync code must be `0b11111111111110` and the next bit zero; the final
bit selects variable block sizing. -/
def blocking_strategy (input : List Nat) : IRes (List Nat) Bool :=
  (takeN 2 input).bind fun i bytes =>
    let b0 := bytes.getD 0 0
    let b1 := bytes.getD 1 0
    let sync_code := b0 * 2 ^ 6 + b1 / 2 ^ 2
    if sync_code = 0b11111111111110 ∧ (b1 / 2) % 2 = 0 then
      .done i (b1 % 2 = 1)
    else .error

/-- `block_sample` (src/frame/parser.rs lines 99-115): block-size code
`0b0000` and sample-rate code `0b1111` are invalid. -/
def block_sample (input : List Nat) : IRes (List Nat) (Nat × Nat) :=
  (be_u8 input).bind fun i byte =>
    let block_byte := byte / 2 ^ 4
    let sample_byte := byte % 2 ^ 4
    if block_byte ≠ 0 ∧ sample_byte ≠ 0b1111 then
      .done i (block_byte, sample_byte)
    else .error

/-- `channel_bits` (src/frame/parser.rs lines 122-153): channel codes
0..7 mean independent with code+1 channels, 8/9/10 the stereo modes,
11..15 invalid; sample-size codes 3 and 7 and a set final bit are
invalid. -/
def channel_bits (input : List Nat) :
    IRes (List Nat) (ChannelAssignment × Nat × Nat) :=
  (be_u8 input).bind fun i byte =>
    let channel_byte := byte / 2 ^ 4
    let channels := if channel_byte ≤ 7 then channel_byte + 1 else 2
    let channel_assignment :=
      if channel_byte ≤ 7 then ChannelAssignment.independent
      else if channel_byte = 8 then ChannelAssignment.leftSide
      else if channel_byte = 9 then ChannelAssignment.rightSide
      else if channel_byte = 10 then ChannelAssignment.midpointSide
      else ChannelAssignment.independent
    let size_byte := (byte / 2) % 2 ^ 3
    if channel_byte < 0b1011 ∧ size_byte ≠ 0b0011 ∧ size_byte ≠ 0b0111 ∧
        byte % 2 = 0 then
      .done i (channel_assignment, channels, size_byte)
    else .error

/-- `utf8_header` (src/frame/parser.rs lines 159-173): classify the
leading byte of the UTF-8-like coded number; `0xFE` is only admitted for
sample numbering (`is_u64`). -/
def utf8_header (input : List Nat) (is_u64 : Bool) :
    IRes (List Nat) (Option (Nat × Nat)) :=
  (be_u8 input).map fun byte =>
    if byte ≤ 0b01111111 then some (0, byte)
    else if 0b11000000 ≤ byte ∧ byte ≤ 0b11011111 then some (1, byte % 2 ^ 5)
    else if 0b11100000 ≤ byte ∧ byte ≤ 0b11101111 then some (2, byte % 2 ^ 4)
    else if 0b11110000 ≤ byte ∧ byte ≤ 0b11110111 then some (3, byte % 2 ^ 3)
    else if 0b11111000 ≤ byte ∧ byte ≤ 0b11111011 then some (4, byte % 2 ^ 2)
    else if 0b11111100 ≤ byte ∧ byte ≤ 0b11111101 then some (5, byte % 2)
    else if byte = 0b11111110 then (if is_u64 then some (6, 0) else none)
    else none

/-- `number_type` (src/frame/parser.rs lines 177-207): `size`
continuation bytes, each required to match `0b10xxxxxx`, accumulated
six bits at a time onto the header value (`u64` arithmetic; a frame
number is narrowed to `u32`). -/
def number_type (input : List Nat) (is_sample : Bool) (sv : Nat × Nat) :
    IRes (List Nat) NumberType :=
  (takeN sv.1 input).bind fun i bytes =>
    if bytes.all (fun b => decide (0b10000000 ≤ b ∧ b ≤ 0b10111111)) then
      let result := bytes.foldl (fun r b => r * 2 ^ 6 + b % 2 ^ 6) sv.2
      if is_sample then .done i (.sample result)
      else .done i (.frame (result % 2 ^ 32))
    else .error

/-- nom `opt!`: an inner error becomes `None` without consuming input;
incompleteness passes through. -/
def optP (r : IRes (List Nat) Nat) (input : List Nat) :
    IRes (List Nat) (Option Nat) :=
  match r with
  | .done i v => .done i (some v)
  | .error => .done input none
  | .incomplete n => .incomplete n

/-- `secondary_block_size` (src/frame/parser.rs lines 209-216): one or
two extra bytes for block-size codes 6 and 7. -/
def secondary_block_size (input : List Nat) (block_byte : Nat) :
    IRes (List Nat) (Option Nat) :=
  if block_byte = 0b0110 then optP ((takeN 1 input).map to_u32) input
  else if block_byte = 0b0111 then optP ((takeN 2 input).map to_u32) input
  else .done input none

/-- `secondary_sample_rate` (src/frame/parser.rs lines 218-225): one
extra byte for sample-rate code 12, two for 13 and 14. -/
def secondary_sample_rate (input : List Nat) (sample_byte : Nat) :
    IRes (List Nat) (Option Nat) :=
  if sample_byte = 0b1100 then optP ((takeN 1 input).map to_u32) input
  else if sample_byte = 0b1101 ∨ sample_byte = 0b1110 then
    optP ((takeN 2 input).map to_u32) input
  else .done input none

/-- The `chain!` of `header` (src/frame/parser.rs lines 229-290) before
the CRC-8 comparison.  The `unwrap()`s on the secondary values are
modelled with `getD 0` (they cannot fail: `take!` never returns the
`Error` that `opt!` would turn into `None`), and the `unreachable!`
table arms with a zero default. -/
def header_raw (input : List Nat) (stream_info : metadata.StreamInfo) :
    IRes (List Nat) Header :=
  (blocking_strategy input).bind fun i1 is_variable_block_size =>
  (block_sample i1).bind fun i2 t0 =>
  (channel_bits i2).bind fun i3 t1 =>
  (utf8_header i3 is_variable_block_size).bind fun i4 utf8_header_opt =>
  ((match utf8_header_opt with
    | some v => .done i4 v
    | none => .error : IRes (List Nat) (Nat × Nat))).bind
    fun i4b utf8_header_val =>
  (number_type i4b is_variable_block_size utf8_header_val).bind
    fun i5 number =>
  (secondary_block_size i5 t0.1).bind fun i6 alt_block_size =>
  (secondary_sample_rate i6 t0.2).bind fun i7 alt_sample_rate =>
  (be_u8 i7).bind fun i8 crc =>
    let block_size :=
      if t0.1 = 0b0001 then 192
      else if 0b0010 ≤ t0.1 ∧ t0.1 ≤ 0b0101 then 576 * 2 ^ (t0.1 - 2)
      else if t0.1 = 0b0110 ∨ t0.1 = 0b0111 then alt_block_size.getD 0 + 1
      else if 0b1000 ≤ t0.1 ∧ t0.1 ≤ 0b1111 then 256 * 2 ^ (t0.1 - 8)
      else 0
    let sample_rate :=
      if t0.2 = 0 then stream_info.sample_rate
      else if t0.2 = 1 then 88200
      else if t0.2 = 2 then 176400
      else if t0.2 = 3 then 192000
      else if t0.2 = 4 then 8000
      else if t0.2 = 5 then 16000
      else if t0.2 = 6 then 22050
      else if t0.2 = 7 then 24000
      else if t0.2 = 8 then 32000
      else if t0.2 = 9 then 44100
      else if t0.2 = 10 then 48000
      else if t0.2 = 11 then 96000
      else if t0.2 = 12 then alt_sample_rate.getD 0 * 1000
      else if t0.2 = 13 then alt_sample_rate.getD 0
      else if t0.2 = 14 then alt_sample_rate.getD 0 * 10
      else 0
    let bits_per_sample :=
      if t1.2.2 = 0 then stream_info.bits_per_sample
      else if t1.2.2 = 1 then 8
      else if t1.2.2 = 2 then 12
      else if t1.2.2 = 4 then 16
      else if t1.2.2 = 5 then 20
      else if t1.2.2 = 6 then 24
      else 0
    .done i8
      { block_size := block_size, sample_rate := sample_rate
        channels := t1.2.1, channel_assignment := t1.1
        bits_per_sample := bits_per_sample, number := number, crc := crc }

/-- `header` (src/frame/parser.rs lines 227-306): the chain above,
then the CRC-8 of every consumed byte but the last must equal the
stored byte. -/
def header (input : List Nat) (stream_info : metadata.StreamInfo) :
    IRes (List Nat) Header :=
  match header_raw input stream_info with
  | .done i frame_header =>
    if crc8 (input.take (input.length - i.length - 1)) = frame_header.crc
    then .done i frame_header
    else .error
  | .error => .error
  | .incomplete n => .incomplete n

/-- The per-channel subframe loop
(`count_slice!(apply!(subframe_parser, ...))` in src/frame/parser.rs
lines 37-42): parse one subframe per channel, advancing the channel
index. -/
def subframes_go (frame_header : Header) :
    Nat → Nat → BitInput → IRes BitInput (List subframe.Subframe)
  | 0, _, input => .done input []
  | n + 1, channel, input =>
    match subframe.subframe_parse input frame_header channel with
    | .done i sf =>
      match subframes_go frame_header n (channel + 1) i with
      | .done i2 rest => .done i2 (sf :: rest)
      | .error => .error
      | .incomplete _ => .incomplete none
    | .error => .error
    | .incomplete _ => .incomplete none

/-- nom `bits!`: run a bit-level parser from offset zero; on success a
partially consumed byte is skipped (the frame-footer realignment), and
an incomplete bit count is converted to a byte count. -/
def bitsP {α : Type} (p : BitInput → IRes BitInput α) (input : List Nat) :
    IRes (List Nat) α :=
  match p (input, 0) with
  | .done (i, bit_index) o => .done (if bit_index = 0 then i else i.drop 1) o
  | .error => .error
  | .incomplete n => .incomplete (n.map (fun sz => sz / 8 + 1))

/-- `footer` (src/frame/parser.rs line 308): a big-endian `u16`. -/
def footer (input : List Nat) : IRes (List Nat) Footer :=
  (be_u16 input).map Footer.mk

/-- The `chain!` of `frame_parser` (src/frame/parser.rs lines 35-51)
before the CRC-16 comparison: the header, one subframe per channel at
bit granularity, then the footer. -/
def frame_raw (input : List Nat) (stream_info : metadata.StreamInfo) :
    IRes (List Nat) Frame :=
  (header input stream_info).bind fun i1 frame_header =>
  (bitsP (subframes_go frame_header frame_header.channels 0) i1).bind
    fun i2 sfs =>
  (footer i2).map fun frame_footer =>
    { header := frame_header, subframes := sfs, footer := frame_footer }

/-- `frame_parser` (src/frame/parser.rs lines 21-68): the chain above,
then the CRC-16 of every consumed byte except the two footer bytes must
equal the stored footer. -/
def frame_parse (input : List Nat) (stream_info : metadata.StreamInfo) :
    IRes (List Nat) Frame :=
  match frame_raw input stream_info with
  | .done i f =>
    if crc16 (input.take (input.length - i.length - 2)) = f.footer.val
    then .done i f
    else .error
  | .error => .error
  | .incomplete n => .incomplete n

end frame

/-- C5: For every input byte sequence, the frame-header parse succeeds
only when the CRC-8 (polynomial 0x07, init 0) of all header bytes
preceding the stored CRC byte equals that stored byte, and the
whole-frame parse succeeds only when the CRC-16 (polynomial 0x8005,
init 0) of all frame bytes preceding the footer equals the stored 16-bit
footer; on either mismatch — the inner chain having parsed but the
checksum disagreeing — the parse returns an error and no frame is
produced. -/
theorem claim_C5 :
    (∀ (input : List Nat) (si : metadata.StreamInfo) (i : List Nat)
        (fh : frame.Header),
      frame.header input si = .done i fh →
      crc8 (input.take (input.length - i.length - 1)) = fh.crc) ∧
    (∀ (input : List Nat) (si : metadata.StreamInfo) (i : List Nat)
        (fh : frame.Header),
      frame.header_raw input si = .done i fh →
      crc8 (input.take (input.length - i.length - 1)) ≠ fh.crc →
      frame.header input si = .error) ∧
    (∀ (input : List Nat) (si : metadata.StreamInfo) (i : List Nat)
        (f : frame.Frame),
      frame.frame_parse input si = .done i f →
      crc16 (input.take (input.length - i.length - 2)) = f.footer.val) ∧
    (∀ (input : List Nat) (si : metadata.StreamInfo) (i : List Nat)
        (f : frame.Frame),
      frame.frame_raw input si = .done i f →
      crc16 (input.take (input.length - i.length - 2)) ≠ f.footer.val →
      frame.frame_parse input si = .error) := by
  refine ⟨?_, ?_, ?_, ?_⟩
  · intro input si i fh h
    unfold frame.header at h
    split at h
    · split at h
      · rename_i hc
        cases h
        exact hc
      · cases h
    · cases h
    · cases h
  · intro input si i fh h hne
    unfold frame.header
    rw [h]
    show (if crc8 (input.take (input.length - i.length - 1)) = fh.crc
        then IRes.done i fh else IRes.error) = IRes.error
    rw [if_neg hne]
  · intro input si i f h
    unfold frame.frame_parse at h
    split at h
    · split at h
      · rename_i hc
        cases h
        exact hc
      · cases h
    · cases h
    · cases h
  · intro input si i f h hne
    unfold frame.frame_parse
    rw [h]
    show (if crc16 (input.take (input.length - i.length - 2)) = f.footer.val
        then IRes.done i f else IRes.error) = IRes.error
    rw [if_neg hne]

set_option maxRecDepth 100000 in
/-- C5 witness: a concrete frame-header parse (the source's `test_header`
third vector) and a concrete whole-frame parse (one CONSTANT subframe of
value 42), each run through the theorem at its successful parse to
recover the checksum equalities `crc8 = 0x19` and `crc16 = 0x3ED4`. -/
theorem claim_C5_witness :
    (frame.header [0xff, 0xf8, 0xc8, 0x72, 0x40, 0x19]
        metadata.StreamInfo.new =
      .done []
        { block_size := 4096, sample_rate := 32000, channels := 8,
          channel_assignment := .independent, bits_per_sample := 8,
          number := .frame 64, crc := 0x19 }) ∧
    crc8 (([0xff, 0xf8, 0xc8, 0x72, 0x40, 0x19] : List Nat).take
        (([0xff, 0xf8, 0xc8, 0x72, 0x40, 0x19] : List Nat).length -
          ([] : List Nat).length - 1)) =
      ({ block_size := 4096, sample_rate := 32000, channels := 8,
         channel_assignment := .independent, bits_per_sample := 8,
         number := .frame 64, crc := 0x19 } : frame.Header).crc ∧
    (frame.frame_parse
        [0xff, 0xf8, 0x19, 0x02, 0x00, 0x38, 0x00, 0x2a, 0x3E, 0xD4]
        metadata.StreamInfo.new =
      .done []
        { header :=
            { block_size := 192, sample_rate := 44100, channels := 1,
              channel_assignment := .independent, bits_per_sample := 8,
              number := .frame 0, crc := 0x38 }
          subframes := [{ data := .constant 42, wasted_bits := 0 }]
          footer := { val := 0x3ED4 } }) ∧
    crc16 (([0xff, 0xf8, 0x19, 0x02, 0x00, 0x38, 0x00, 0x2a, 0x3E, 0xD4] :
          List Nat).take
        (([0xff, 0xf8, 0x19, 0x02, 0x00, 0x38, 0x00, 0x2a, 0x3E, 0xD4] :
            List Nat).length - ([] : List Nat).length - 2)) =
      (({ header :=
            { block_size := 192, sample_rate := 44100, channels := 1,
              channel_assignment := .independent, bits_per_sample := 8,
              number := .frame 0, crc := 0x38 }
          subframes := [{ data := .constant 42, wasted_bits := 0 }]
          footer := { val := 0x3ED4 } } : frame.Frame)).footer.val :=
  ⟨by decide,
   claim_C5.1 [0xff, 0xf8, 0xc8, 0x72, 0x40, 0x19] metadata.StreamInfo.new []
     { block_size := 4096, sample_rate := 32000, channels := 8,
       channel_assignment := .independent, bits_per_sample := 8,
       number := .frame 64, crc := 0x19 } (by decide),
   by decide,
   claim_C5.2.2.1
     [0xff, 0xf8, 0x19, 0x02, 0x00, 0x38, 0x00, 0x2a, 0x3E, 0xD4]
     metadata.StreamInfo.new []
     { header :=
         { block_size := 192, sample_rate := 44100, channels := 1,
           channel_assignment := .independent, bits_per_sample := 8,
           number := .frame 0, crc := 0x38 }
       subframes := [{ data := .constant 42, wasted_bits := 0 }]
       footer := { val := 0x3ED4 } } (by decide)⟩

end Flac
